import Mathlib

/-!
Verification development for the ddex-suite repository (DDEX ERN parser,
builder, canonicalizer and diff tooling).  Rust source functions are
shallowly embedded as executable Lean definitions over `List Char`
(text) and `List Nat` (bytes); theorems settle the specification claims
against those embeddings.
-/

namespace DdexSuite

/-! ## Shared text primitives (Rust `str` operations) -/

/-- The set of characters Rust's `char::is_whitespace` accepts
(Unicode `White_Space` property), written out by code point. -/
def isRustWhitespace (c : Char) : Bool :=
  c.toNat ∈ [0x9, 0xA, 0xB, 0xC, 0xD, 0x20, 0x85, 0xA0, 0x1680,
    0x2000, 0x2001, 0x2002, 0x2003, 0x2004, 0x2005, 0x2006, 0x2007,
    0x2008, 0x2009, 0x200A, 0x2028, 0x2029, 0x202F, 0x205F, 0x3000]

/-- Rust `str::split(sep)` on a single separator character: every
occurrence of the separator splits, empty pieces are kept, and the
empty string yields one empty piece. -/
def rustSplit (sep : Char) : List Char → List (List Char)
  | [] => [[]]
  | c :: t =>
    if c = sep then [] :: rustSplit sep t
    else
      match rustSplit sep t with
      | [] => [[c]]
      | h :: r => (c :: h) :: r

/-- Rust `str::trim_start`: drop leading Unicode whitespace. -/
def rustTrimStart (s : List Char) : List Char :=
  s.dropWhile isRustWhitespace

/-- Rust `str::trim_end`: drop trailing Unicode whitespace. -/
def rustTrimEnd (s : List Char) : List Char :=
  (s.reverse.dropWhile isRustWhitespace).reverse

/-- Rust `str::trim`: drop whitespace at both ends. -/
def rustTrim (s : List Char) : List Char :=
  rustTrimEnd (rustTrimStart s)

/-- Rust `str::contains(pat)` for a literal pattern: some suffix of the
haystack starts with the pattern. -/
def rustContains (pat s : List Char) : Bool :=
  decide (pat <:+: s)

/-- Rust `str::replace(from, to)`: replace every non-overlapping
occurrence of `from`, scanning left to right.  An empty pattern matches
at every character boundary, as in Rust. -/
def rustReplace (pat rep : List Char) : List Char → List Char
  | [] => if pat.isEmpty then rep else []
  | c :: t =>
    if h : pat ≠ [] ∧ pat.isPrefixOf (c :: t) then
      rep ++ rustReplace pat rep ((c :: t).drop pat.length)
    else if pat = [] then
      rep ++ c :: rustReplace pat rep t
    else
      c :: rustReplace pat rep t
termination_by s => s.length
decreasing_by
  · simp only [List.length_drop, List.length_cons]
    have hp : 0 < pat.length := List.length_pos.mpr h.1
    omega
  · simp [Nat.lt_succ_self]
  · simp [Nat.lt_succ_self]

/-! ## ERN versions (ddex_core::models::versions::ERNVersion) -/

inductive ERNVersion where
  | V3_8_2
  | V4_2
  | V4_3
deriving DecidableEq, Repr

/-- bindings/node/src/lib.rs `version_to_string`. -/
def version_to_string (v : ERNVersion) : List Char :=
  match v with
  | .V3_8_2 => "V3_8_2".toList
  | .V4_2 => "V4_2".toList
  | .V4_3 => "V4_3".toList

/-! ## C1 — sanity check (ddex-parser core and node binding) -/

/-- ddex-parser core `SanityCheckResult` (packages/ddex-parser/src/lib.rs). -/
structure SanityCheckResult where
  is_valid : Bool
  version : ERNVersion
  errors : List (List Char)
  warnings : List (List Char)
deriving DecidableEq, Repr

/-- Parse errors of the core parser.  Only the constructors the embedded
functions can actually produce are listed; payloads are message text. -/
inductive ParseError where
  | xmlError (message : List Char)
  | ioError (message : List Char)
deriving DecidableEq, Repr

/-- `DDEXParser::sanity_check` (packages/ddex-parser/src/lib.rs, lines
151-163): the reader argument is ignored (`_reader`) and a fixed
"placeholder" report is returned: valid, version `V4_3`, no errors,
no warnings. -/
def sanity_check (_reader : List Char) : Except ParseError SanityCheckResult :=
  Except.ok { is_valid := true, version := ERNVersion.V4_3, errors := [], warnings := [] }

/-- Node-side `SanityCheckResult` (version is a string). -/
structure SanityCheckResultJs where
  is_valid : Bool
  version : List Char
  errors : List (List Char)
  warnings : List (List Char)
deriving DecidableEq, Repr

/-- `DdexParser::sanity_check` of the node binding
(packages/ddex-parser/bindings/node/src/lib.rs, lines 541-598):
reject empty input and input not starting (after whitespace) with
`<?xml` or `<`; otherwise delegate to the core placeholder check.
The core check never returns `Err`, so the error branch of the match
is reproduced but unreachable. -/
def node_sanity_check (xml : List Char) : SanityCheckResultJs :=
  if xml = [] then
    { is_valid := false
      version := "Unknown".toList
      errors := ["XML input cannot be empty for sanity check".toList]
      warnings := [] }
  else if ¬ ("<?xml".toList.isPrefixOf (rustTrimStart xml)
      ∨ "<".toList.isPrefixOf (rustTrimStart xml)) then
    { is_valid := false
      version := "Unknown".toList
      errors := ["Input does not appear to be valid XML".toList]
      warnings := [] }
  else
    match sanity_check xml with
    | Except.ok r =>
      { is_valid := r.is_valid
        version := version_to_string r.version
        errors := r.errors
        warnings := r.warnings }
    | Except.error _ =>
      { is_valid := false
        version := "Unknown".toList
        errors := ["Sanity check failed".toList]
        warnings := [] }

/-- C1: evaluating the code at the failing input `"<unclosed<tag"` — a
byte sequence every full parse rejects as malformed XML — the sanity
check still reports `is_valid = true` with an empty error list and a
hardcoded version, because `DDEXParser::sanity_check` is a placeholder
that ignores its input entirely. -/
theorem c1_sanity_check_reports_valid_on_malformed_input :
    node_sanity_check "<unclosed<tag".toList =
      { is_valid := true
        version := "V4_3".toList
        errors := []
        warnings := [] } := by
  decide

/-! ## C3 — round-trip fidelity testing (ddex-builder node binding) -/

/-- Node binding `FidelityOptions`
(packages/ddex-builder/bindings/node/src/lib.rs, lines 77-94).
Floating-point-free embedding: no field holds a float. -/
structure FidelityOptions where
  enable_perfect_fidelity : Option Bool := none
  canonicalization : Option (List Char) := none
  preserve_comments : Option Bool := none
  preserve_processing_instructions : Option Bool := none
  preserve_extensions : Option Bool := none
  preserve_attribute_order : Option Bool := none
  preserve_namespace_prefixes : Option Bool := none
  enable_verification : Option Bool := none
  collect_statistics : Option Bool := none
  enable_deterministic_ordering : Option Bool := none
  memory_optimization : Option (List Char) := none
  streaming_mode : Option Bool := none
  chunk_size : Option Nat := none
  enable_checksums : Option Bool := none
deriving DecidableEq, Repr

/-- Node binding `VerificationResult` (lines 110-119).  The `f64`
fidelity score is embedded as a rational number; the code only ever
stores literal constants in it. -/
structure VerificationResult where
  round_trip_success : Bool
  fidelity_score : ℚ
  canonicalization_consistent : Bool
  determinism_verified : Bool
  issues : List (List Char)
  checksums_match : Option Bool
deriving DecidableEq, Repr

/-- `DdexBuilder::test_round_trip_fidelity`
(packages/ddex-builder/bindings/node/src/lib.rs, lines 282-297): both
arguments are ignored (`_original_xml`, `_fidelity_options`) and a
fixed mock result with fidelity score 0.98 is returned. -/
def test_round_trip_fidelity (_original_xml : List Char)
    (_fidelity_options : Option FidelityOptions) : Except (List Char) VerificationResult :=
  Except.ok
    { round_trip_success := true
      fidelity_score := (98 : ℚ) / 100
      canonicalization_consistent := true
      determinism_verified := true
      issues := ["Minor whitespace differences in comments".toList]
      checksums_match := some true }

/-- `DdexBuilder::build_with_fidelity` verification component (lines
244-255): when `enable_verification` is requested the returned
`VerificationResult` is a fixed record (success, score 1.0) computed
without any round trip of the emitted XML. -/
def build_with_fidelity_verification (fidelity_options : Option FidelityOptions) :
    Option VerificationResult :=
  if (fidelity_options.bind (·.enable_verification)).getD false then
    some
      { round_trip_success := true
        fidelity_score := 1
        canonicalization_consistent := true
        determinism_verified := true
        issues := []
        checksums_match := some true }
  else
    none

/-- C3: evaluating the code at the failing input — the byte sequence
`"this is not XML"`, which cannot round-trip at all — the operation
reports a successful round trip with the fixed 0.98 score, and the
same constant record is returned for the well-formed input
`"<NewReleaseMessage/>"`: the result is not derived from any
comparison of parsed documents. -/
theorem c3_round_trip_fidelity_is_mock :
    test_round_trip_fidelity "this is not XML".toList none =
      Except.ok
        { round_trip_success := true
          fidelity_score := (98 : ℚ) / 100
          canonicalization_consistent := true
          determinism_verified := true
          issues := ["Minor whitespace differences in comments".toList]
          checksums_match := some true }
    ∧ test_round_trip_fidelity "<NewReleaseMessage/>".toList none =
        test_round_trip_fidelity "this is not XML".toList none
    ∧ build_with_fidelity_verification
        (some { enable_verification := some true }) =
        some
          { round_trip_success := true
            fidelity_score := 1
            canonicalization_consistent := true
            determinism_verified := true
            issues := []
            checksums_match := some true } := by
  refine ⟨rfl, rfl, rfl⟩

/-! ## C5 — no-data failure of the node `parse_sync` binding -/

/-- Boolean success test for `Except`. -/
def isOkE {ε α : Type} : Except ε α → Bool
  | Except.ok _ => true
  | Except.error _ => false

/-- Modelled from the spec: the flat-view entity type `ParsedRelease`
(packages/core/src/models/flat) is not under src/; per §3.1 a release
carries its id and title (further attributes do not affect the
embedded operations). -/
structure ParsedRelease where
  release_id : List Char
  title : List Char
deriving DecidableEq, Repr

/-- Modelled from the spec: the flat-view entity type `ParsedResource`
is not under src/; per §3.1 a resource carries its id and title. -/
structure ParsedResource where
  resource_id : List Char
  title : List Char
deriving DecidableEq, Repr

/-- Modelled from the spec: the flat-view entity type `ParsedDeal` is
not under src/; per §3.1 a deal carries its id. -/
structure ParsedDeal where
  deal_id : List Char
deriving DecidableEq, Repr

/-- Modelled from the spec: the graph-model `Party` is not under src/;
per §3.1 a party is referenced by an opaque reference token. -/
structure Party where
  party_reference : List Char
deriving DecidableEq, Repr

/-- `Organization` (packages/core/src/models/flat/message.rs); the
opaque extension blob is omitted. -/
structure Organization where
  name : List Char
  id : List Char
deriving DecidableEq, Repr

/-- `MessageStats` (packages/core/src/models/flat/message.rs). -/
structure MessageStats where
  release_count : Nat
  track_count : Nat
  deal_count : Nat
  total_duration : Nat
deriving DecidableEq, Repr

/-- `FlattenedMessage` (packages/core/src/models/flat/message.rs,
lines 39-55).  The Rust `resources` and `parties` fields are
`std::collections::HashMap`s; they are embedded as their entry lists,
with the iteration-order contract modelled separately (see C4).
Timestamps are carried as text; extension blobs are omitted. -/
structure FlattenedMessage where
  message_id : List Char
  message_type : List Char
  message_date : List Char
  sender : Organization
  recipient : Organization
  releases : List ParsedRelease
  resources : List (List Char × ParsedResource)
  deals : List ParsedDeal
  parties : List (List Char × Party)
  version : List Char
  profile : Option (List Char)
  stats : MessageStats
deriving DecidableEq, Repr

/-- `ParsedERNMessage` (packages/core/src/models/flat/message.rs).
The graph view and the extensions side-channel are not inspected by
any embedded operation and are omitted. -/
structure ParsedERNMessage where
  flat : FlattenedMessage
deriving DecidableEq, Repr

/-- `DdexParser::parse_sync`
(packages/ddex-parser/bindings/node/src/lib.rs, lines 462-514).  The
inner Rust parser (`ddex_parser::parser::parse`) is not under src/ and
is taken as a function argument; the binding rejects empty and
oversized input, then rejects a successful parse whose flat view has
no releases, no resources and no deals.  The JS repackaging of a
successful result (`convert_parsed_message`) does not affect
success/failure and is elided: the parsed message is returned as is. -/
def parse_sync (inner : List Char → Except ParseError ParsedERNMessage)
    (xml : List Char) : Except (List Char) ParsedERNMessage :=
  if xml = [] then
    Except.error ("XML input cannot be empty. Please provide a valid DDEX XML document.".toList)
  else if 100000000 < xml.length then
    Except.error ("XML input too large (>100MB). Consider using streaming mode for large files.".toList)
  else
    match inner xml with
    | Except.ok parsed_message =>
      if parsed_message.flat.releases = [] ∧ parsed_message.flat.resources = []
          ∧ parsed_message.flat.deals = [] then
        Except.error ("DDEX parsing succeeded but no releases, resources, or deals were found. Please check that the XML contains valid DDEX content.".toList)
      else
        Except.ok parsed_message
    | Except.error _ =>
      Except.error ("DDEX parse error".toList)

/-- A well-formed but entity-free parse result: the flat view carries
no releases, no resources and no deals. -/
def emptyFlatMessage : ParsedERNMessage :=
  { flat :=
    { message_id := "MSG1".toList
      message_type := "NewReleaseMessage".toList
      message_date := "2024-01-01T00:00:00Z".toList
      sender := { name := "S".toList, id := "S1".toList }
      recipient := { name := "R".toList, id := "R1".toList }
      releases := []
      resources := []
      deals := []
      parties := []
      version := "4.3".toList
      profile := none
      stats := { release_count := 0, track_count := 0, deal_count := 0, total_duration := 0 } } }

/-- C5: whenever the inner parse succeeds on a document but finds zero
releases, zero resources and zero deals, the node binding returns an
error — never a successful empty `ParsedMessage`. -/
theorem c5_no_data_parse_is_error
    (inner : List Char → Except ParseError ParsedERNMessage)
    (xml : List Char) (m : ParsedERNMessage)
    (hok : inner xml = Except.ok m)
    (hrel : m.flat.releases = [])
    (hres : m.flat.resources = [])
    (hdeal : m.flat.deals = []) :
    isOkE (parse_sync inner xml) = false := by
  unfold parse_sync
  split
  · rfl
  · split
    · rfl
    · rw [hok]
      simp only [hrel, hres, hdeal, and_self, if_true]
      rfl

/-- C5 witness: a concrete inner parser returning the empty parse on
the concrete document `"<Empty/>"`, on which `parse_sync` errors. -/
theorem c5_no_data_parse_is_error_witness :
    (fun _ : List Char => Except.ok emptyFlatMessage) "<Empty/>".toList
        = Except.ok (ε := ParseError) emptyFlatMessage
    ∧ emptyFlatMessage.flat.releases = []
    ∧ emptyFlatMessage.flat.resources = []
    ∧ emptyFlatMessage.flat.deals = []
    ∧ isOkE (parse_sync (fun _ => Except.ok emptyFlatMessage) "<Empty/>".toList) = false :=
  ⟨rfl, rfl, rfl, rfl,
    c5_no_data_parse_is_error (fun _ => Except.ok emptyFlatMessage)
      ("<Empty/>".toList) emptyFlatMessage rfl rfl rfl rfl⟩

/-! ## C9 — streaming builder phase discipline (node binding) -/

/-- Streaming build phases per spec §4.6. -/
inductive StreamPhase where
  | Started
  | InResources
  | InReleases
  | Finished
deriving DecidableEq, Repr

/-- Modelled from the spec: `ddex_builder::streaming::StreamingBuilder`
is not under src/.  Per §4.6/§6.2 it owns its output sink, transitions
`Started → InResources → InReleases → Finished`, and an operation
called out of phase is a `PhaseError`. -/
structure StreamingBuilder where
  phase : StreamPhase
  output : List Char
  releases_written : Nat
  resources_written : Nat
  deals_written : Nat
deriving DecidableEq, Repr

/-- Node binding `StreamingStats`
(packages/ddex-builder/bindings/node/src/lib.rs, lines 692-701). -/
structure StreamingStats where
  releases_written : Nat
  resources_written : Nat
  deals_written : Nat
  bytes_written : Nat
  warnings : List (List Char)
  peak_memory_usage : Nat
deriving DecidableEq, Repr

/-- Node binding `MessageHeader` (lines 703-710). -/
structure MessageHeader where
  message_id : Option (List Char)
  message_sender_name : List Char
  message_recipient_name : List Char
  message_created_date_time : Option (List Char)
deriving DecidableEq, Repr

/-- Modelled from the spec: the streaming core's `start_message` writes
the message header to the builder-owned sink and enters `Started`. -/
def inner_start_message (header : MessageHeader) (version : List Char) : StreamingBuilder :=
  { phase := StreamPhase.Started
    output := "<MessageHeader>".toList ++ header.message_sender_name
      ++ header.message_recipient_name ++ "</MessageHeader>".toList ++ version
    releases_written := 0
    resources_written := 0
    deals_written := 0 }

/-- Modelled from the spec: the streaming core's `write_resource`
emits one resource while in `Started`/`InResources`; any other phase
is a `PhaseError`. -/
def inner_write_resource (b : StreamingBuilder) (resource_id title artist : List Char) :
    Except (List Char) (List Char × StreamingBuilder) :=
  match b.phase with
  | StreamPhase.Started | StreamPhase.InResources =>
    Except.ok (resource_id,
      { b with
        phase := StreamPhase.InResources
        output := b.output ++ "<SoundRecording>".toList ++ resource_id ++ title ++ artist
          ++ "</SoundRecording>".toList
        resources_written := b.resources_written + 1 })
  | _ => Except.error ("PhaseError: write_resource".toList)

/-- Modelled from the spec: the streaming core's `write_release` emits
one release while in `InReleases`; any other phase is a `PhaseError`. -/
def inner_write_release (b : StreamingBuilder) (release_id title artist : List Char) :
    Except (List Char) (List Char × StreamingBuilder) :=
  match b.phase with
  | StreamPhase.InReleases =>
    Except.ok (release_id,
      { b with
        output := b.output ++ "<Release>".toList ++ release_id ++ title ++ artist
          ++ "</Release>".toList
        releases_written := b.releases_written + 1 })
  | _ => Except.error ("PhaseError: write_release".toList)

/-- Modelled from the spec: the streaming core's `finish_message`
closes the document from `InReleases` (or directly from the resource
phases, emitting no further entities) and reports statistics. -/
def inner_finish_message (b : StreamingBuilder) : Except (List Char) StreamingStats :=
  match b.phase with
  | StreamPhase.Finished => Except.error ("PhaseError: finish_message".toList)
  | _ =>
    Except.ok
      { releases_written := b.releases_written
        resources_written := b.resources_written
        deals_written := b.deals_written
        bytes_written := b.output.length
        warnings := []
        peak_memory_usage := b.output.length }

/-- Node binding `StreamingDdexBuilder` state
(packages/ddex-builder/bindings/node/src/lib.rs, lines 712-718): an
optional in-flight streaming core plus the binding-held cursor.
The progress callback does not affect any result and is omitted. -/
structure StreamingDdexBuilder where
  inner : Option StreamingBuilder
  buffer : List Char
deriving DecidableEq, Repr

/-- `StreamingDdexBuilder::new` (lines 722-739). -/
def new_streaming_builder : StreamingDdexBuilder :=
  { inner := none, buffer := [] }

/-- `StreamingDdexBuilder::start_message` (lines 761-823): the binding
buffer is replaced by a fresh empty cursor, a new streaming core is
created around another fresh cursor (so the core writes to its own
sink, not to `self.buffer`), and the header is written. -/
def start_message (_st : StreamingDdexBuilder) (header : MessageHeader)
    (version : List Char) : Except (List Char) StreamingDdexBuilder :=
  Except.ok { inner := some (inner_start_message header version), buffer := [] }

/-- `StreamingDdexBuilder::write_resource` (lines 825-838): error when
no message has been started, otherwise delegate to the core. -/
def write_resource (st : StreamingDdexBuilder) (resource_id title artist : List Char) :
    Except (List Char) (List Char × StreamingDdexBuilder) :=
  match st.inner with
  | none => Except.error ("Message not started. Call start_message first.".toList)
  | some b =>
    match inner_write_resource b resource_id title artist with
    | Except.ok (r, b2) => Except.ok (r, { st with inner := some b2 })
    | Except.error e => Except.error ("Failed to write resource: ".toList ++ e)

/-- `StreamingDdexBuilder::write_release` (lines 849-865): error when
no message has been started, otherwise delegate to the core. -/
def write_release (st : StreamingDdexBuilder) (release_id title artist : List Char) :
    Except (List Char) (List Char × StreamingDdexBuilder) :=
  match st.inner with
  | none => Except.error ("Message not started. Call start_message first.".toList)
  | some b =>
    match inner_write_release b release_id title artist with
    | Except.ok (r, b2) => Except.ok (r, { st with inner := some b2 })
    | Except.error e => Except.error ("Failed to write release: ".toList ++ e)

/-- `StreamingDdexBuilder::finish_message` (lines 867-883): the core is
taken out of the binding (`Option::take`) before finishing, so the
in-flight core is gone afterwards in every case; the binding buffer is
left untouched (the core's cursor is never moved back). -/
def finish_message (st : StreamingDdexBuilder) :
    (Except (List Char) StreamingStats) × StreamingDdexBuilder :=
  match st.inner with
  | none =>
    (Except.error ("Message not started. Call start_message first.".toList), st)
  | some b =>
    match inner_finish_message b with
    | Except.ok stats => (Except.ok stats, { inner := none, buffer := st.buffer })
    | Except.error e =>
      (Except.error ("Failed to finish message: ".toList ++ e),
        { inner := none, buffer := st.buffer })

/-- `StreamingDdexBuilder::get_xml` (lines 885-895): error while a
message is in flight; otherwise return the binding buffer's contents
as text. -/
def get_xml (st : StreamingDdexBuilder) : Except (List Char) (List Char) :=
  if st.inner.isSome then
    Except.error ("Message not finished. Call finish_message first.".toList)
  else
    Except.ok st.buffer

/-- C9 counterexample: on a freshly constructed streaming builder —
where `finish_message` has never completed (no message was even
started) — `get_xml` succeeds with the empty string instead of
returning an error, refuting the claim that `get_xml` errors unless
`finish_message` has completed. -/
theorem c9_get_xml_succeeds_without_finish :
    get_xml new_streaming_builder = Except.ok [] := rfl

/-- C9 (amended): `write_resource`, `write_release` and
`finish_message` each error when no message has been started, and
`get_xml` errors exactly while a message is in flight — it succeeds
(with the binding buffer, which stays empty) whenever no message is in
flight, including on a builder where `finish_message` never ran. -/
theorem c9_phase_guards (st : StreamingDdexBuilder)
    (rid rtitle rartist : List Char) :
    (st.inner = none →
      write_resource st rid rtitle rartist
          = Except.error ("Message not started. Call start_message first.".toList)
      ∧ write_release st rid rtitle rartist
          = Except.error ("Message not started. Call start_message first.".toList)
      ∧ (finish_message st).1
          = Except.error ("Message not started. Call start_message first.".toList))
    ∧ (isOkE (get_xml st) = true ↔ st.inner = none) := by
  constructor
  · intro hnone
    refine ⟨?_, ?_, ?_⟩ <;> simp [write_resource, write_release, finish_message, hnone]
  · cases h : st.inner <;> simp [get_xml, h, isOkE]

/-- C9 witness: the guards evaluated on the concrete fresh builder. -/
theorem c9_phase_guards_witness :
    new_streaming_builder.inner = none
    ∧ write_resource new_streaming_builder ("A1".toList) ("T".toList) ("Ar".toList)
        = Except.error ("Message not started. Call start_message first.".toList)
    ∧ (finish_message new_streaming_builder).1
        = Except.error ("Message not started. Call start_message first.".toList)
    ∧ isOkE (get_xml new_streaming_builder) = true :=
  ⟨rfl,
    ((c9_phase_guards new_streaming_builder ("A1".toList) ("T".toList) ("Ar".toList)).1 rfl).1,
    ((c9_phase_guards new_streaming_builder ("A1".toList) ("T".toList) ("Ar".toList)).1 rfl).2.2,
    (c9_phase_guards new_streaming_builder ("A1".toList) ("T".toList) ("Ar".toList)).2.mpr rfl⟩

/-! ## Byte-level primitives for the fast streaming parser -/

/-- ASCII byte values of a character list (DDEX tag names are ASCII). -/
def chBytes (s : List Char) : List Nat :=
  s.map Char.toNat

/-- Rust `std::str::from_utf8` validity: the byte list is well-formed
UTF-8 (no overlong encodings, no surrogates, max U+10FFFF). -/
def validUtf8 : List Nat → Bool
  | [] => true
  | b :: rest =>
    if b < 0x80 then validUtf8 rest
    else if 0xC2 ≤ b ∧ b ≤ 0xDF then
      match rest with
      | b1 :: r => (0x80 ≤ b1 ∧ b1 ≤ 0xBF : Bool) && validUtf8 r
      | [] => false
    else if b = 0xE0 then
      match rest with
      | b1 :: b2 :: r =>
        (0xA0 ≤ b1 ∧ b1 ≤ 0xBF : Bool) && (0x80 ≤ b2 ∧ b2 ≤ 0xBF : Bool) && validUtf8 r
      | _ => false
    else if (0xE1 ≤ b ∧ b ≤ 0xEC) ∨ b = 0xEE ∨ b = 0xEF then
      match rest with
      | b1 :: b2 :: r =>
        (0x80 ≤ b1 ∧ b1 ≤ 0xBF : Bool) && (0x80 ≤ b2 ∧ b2 ≤ 0xBF : Bool) && validUtf8 r
      | _ => false
    else if b = 0xED then
      match rest with
      | b1 :: b2 :: r =>
        (0x80 ≤ b1 ∧ b1 ≤ 0x9F : Bool) && (0x80 ≤ b2 ∧ b2 ≤ 0xBF : Bool) && validUtf8 r
      | _ => false
    else if b = 0xF0 then
      match rest with
      | b1 :: b2 :: b3 :: r =>
        (0x90 ≤ b1 ∧ b1 ≤ 0xBF : Bool) && (0x80 ≤ b2 ∧ b2 ≤ 0xBF : Bool)
          && (0x80 ≤ b3 ∧ b3 ≤ 0xBF : Bool) && validUtf8 r
      | _ => false
    else if 0xF1 ≤ b ∧ b ≤ 0xF3 then
      match rest with
      | b1 :: b2 :: b3 :: r =>
        (0x80 ≤ b1 ∧ b1 ≤ 0xBF : Bool) && (0x80 ≤ b2 ∧ b2 ≤ 0xBF : Bool)
          && (0x80 ≤ b3 ∧ b3 ≤ 0xBF : Bool) && validUtf8 r
      | _ => false
    else if b = 0xF4 then
      match rest with
      | b1 :: b2 :: b3 :: r =>
        (0x80 ≤ b1 ∧ b1 ≤ 0x8F : Bool) && (0x80 ≤ b2 ∧ b2 ≤ 0xBF : Bool)
          && (0x80 ≤ b3 ∧ b3 ≤ 0xBF : Bool) && validUtf8 r
      | _ => false
    else false
termination_by s => s.length
decreasing_by all_goals simp_arith [List.length_cons]

/-- `memchr::memmem::find` / `memchr`: index of the leftmost
occurrence of the needle, scanning left to right (the empty needle
matches at index 0). -/
def memFind (pat : List Nat) : List Nat → Option Nat
  | [] => if pat.isPrefixOf ([] : List Nat) then some 0 else none
  | c :: t => if pat.isPrefixOf (c :: t) then some 0 else (memFind pat t).map (· + 1)

/-- Rust byte-level `split` on one separator byte (every occurrence
splits; empty pieces kept). -/
def splitBytes (sep : Nat) : List Nat → List (List Nat)
  | [] => [[]]
  | c :: t =>
    if c = sep then [] :: splitBytes sep t
    else
      match splitBytes sep t with
      | [] => [[c]]
      | h :: r => (c :: h) :: r

/-! ## C10 — byte-prefix element classification
(packages/ddex-parser/src/streaming/fast_streaming_parser.rs) -/

/-- `FastElementType` (fast_streaming_parser.rs, lines 45-53); the
`Other` payload carries the (UTF-8-validated) tag-name bytes. -/
inductive FastElementType where
  | Release
  | Resource
  | Party
  | Deal
  | MessageHeader
  | Other (name : List Nat)
deriving DecidableEq, Repr

/-- Tag-name boundary bytes b' ', b'>', b'/', b'\t', b'\n', b'\r'
(fast_streaming_parser.rs, line 190). -/
def isBoundaryByte (b : Nat) : Bool :=
  b = 32 ∨ b = 62 ∨ b = 47 ∨ b = 9 ∨ b = 10 ∨ b = 13

/-- The tag name `&data[1..=boundary_pos]` extracted once a boundary
byte is found at relative position `boundary_pos` in `data[1..]`. -/
def extracted_tag_name (data : List Nat) (boundary_pos : Nat) : List Nat :=
  (data.drop 1).take boundary_pos

/-- `FastStreamingParser::detect_element_type_from_bytes`
(fast_streaming_parser.rs, lines 182-219): slices shorter than 8 bytes
or not starting with `<` yield `None`; otherwise the tag name up to
the first boundary byte within the first 50 bytes is classified by
byte prefix, in source order (Release before Resource before Party
before Deal before MessageHeader, then UTF-8-checked `Other`). -/
def detect_element_type_from_bytes (data : List Nat) : Option FastElementType :=
  match data with
  | [] => none
  | d0 :: _ =>
    if data.length < 8 ∨ d0 ≠ 60 then none
    else
      let searchEnd := min data.length 50
      match ((data.drop 1).take (searchEnd - 1)).findIdx? isBoundaryByte with
      | none => none
      | some boundary_pos =>
        let tag_name := extracted_tag_name data boundary_pos
        if (chBytes ("Release".toList)).isPrefixOf tag_name
            ∨ (chBytes ("ern:Release".toList)).isPrefixOf tag_name then
          some FastElementType.Release
        else if (chBytes ("Resource".toList)).isPrefixOf tag_name
            ∨ (chBytes ("ern:Resource".toList)).isPrefixOf tag_name
            ∨ (chBytes ("SoundRecording".toList)).isPrefixOf tag_name
            ∨ (chBytes ("ern:SoundRecording".toList)).isPrefixOf tag_name then
          some FastElementType.Resource
        else if (chBytes ("Party".toList)).isPrefixOf tag_name
            ∨ (chBytes ("ern:Party".toList)).isPrefixOf tag_name then
          some FastElementType.Party
        else if (chBytes ("Deal".toList)).isPrefixOf tag_name
            ∨ (chBytes ("ern:Deal".toList)).isPrefixOf tag_name then
          some FastElementType.Deal
        else if (chBytes ("MessageHeader".toList)).isPrefixOf tag_name
            ∨ (chBytes ("ern:MessageHeader".toList)).isPrefixOf tag_name then
          some FastElementType.MessageHeader
        else if validUtf8 tag_name then
          some (FastElementType.Other tag_name)
        else
          none

/-- Heads of prefixes agree with heads of their extensions. -/
theorem head_eq_of_isPrefixOf {p l : List Nat} (b : Nat) (hp : List.isPrefixOf (b :: p) l = true) :
    l.head? = some b := by
  rw [List.isPrefixOf_iff_prefix] at hp
  rcases hp with ⟨t, ht⟩
  subst ht
  rfl

/-- C10: for every at-least-8-byte slice beginning with `<` in which a
boundary byte terminates the tag name, classification is purely by
tag-name byte prefix — a `Release`/`ern:Release` prefix (covering
`ReleaseList`, `ReleaseId`, …) yields `Release`, a `Deal` prefix
(covering `DealList`, …) yields `Deal`, a `Party` prefix (covering
`PartyName`, …) yields `Party` — and every slice shorter than 8 bytes
is classified `None`. -/
theorem c10_byte_prefix_classification (data : List Nat) (boundary_pos : Nat)
    (h8 : 8 ≤ data.length) (hlt : data.head? = some 60)
    (hbp : ((data.drop 1).take (min data.length 50 - 1)).findIdx? isBoundaryByte
      = some boundary_pos) :
    ((chBytes ("Release".toList)).isPrefixOf (extracted_tag_name data boundary_pos) = true →
      detect_element_type_from_bytes data = some FastElementType.Release)
    ∧ ((chBytes ("ern:Release".toList)).isPrefixOf (extracted_tag_name data boundary_pos) = true →
      detect_element_type_from_bytes data = some FastElementType.Release)
    ∧ ((chBytes ("Deal".toList)).isPrefixOf (extracted_tag_name data boundary_pos) = true →
      detect_element_type_from_bytes data = some FastElementType.Deal)
    ∧ ((chBytes ("Party".toList)).isPrefixOf (extracted_tag_name data boundary_pos) = true →
      detect_element_type_from_bytes data = some FastElementType.Party)
    ∧ (∀ short : List Nat, short.length < 8 →
      detect_element_type_from_bytes short = none) := by
  have hne : data ≠ [] := by
    intro h; rw [h] at h8; simp at h8
  obtain ⟨d0, rest, hd⟩ := List.exists_cons_of_ne_nil hne
  subst hd
  have hd0 : d0 = 60 := by simpa using hlt
  subst hd0
  have hlen : ¬ ((60 :: rest).length < 8 ∨ (60 : Nat) ≠ 60) := by
    push_neg
    exact ⟨by omega, rfl⟩
  refine ⟨?_, ?_, ?_, ?_, ?_⟩
  · intro hrel
    simp only [detect_element_type_from_bytes, hlen, if_false, hbp, hrel]
    simp
  · intro hern
    simp only [detect_element_type_from_bytes, hlen, if_false, hbp, hern]
    simp
  · intro hdeal
    have hhead : (extracted_tag_name (60 :: rest) boundary_pos).head? = some 68 :=
      head_eq_of_isPrefixOf (p := chBytes ("eal".toList)) 68 hdeal
    simp only [detect_element_type_from_bytes, hlen, if_false, hbp]
    have noRel : ∀ p : List Nat, p.head? = some 82 →
        List.isPrefixOf p (extracted_tag_name (60 :: rest) boundary_pos) = false := by
      intro p hp
      cases p with
      | nil => simp at hp
      | cons a q =>
        simp only [List.head?] at hp
        injection hp with ha; subst ha
        by_contra hcon
        simp only [Bool.not_eq_false] at hcon
        have := head_eq_of_isPrefixOf (p := q) 82 hcon
        rw [hhead] at this
        simp at this
    have noE : ∀ p : List Nat, p.head? = some 101 →
        List.isPrefixOf p (extracted_tag_name (60 :: rest) boundary_pos) = false := by
      intro p hp
      cases p with
      | nil => simp at hp
      | cons a q =>
        simp only [List.head?] at hp
        injection hp with ha; subst ha
        by_contra hcon
        simp only [Bool.not_eq_false] at hcon
        have := head_eq_of_isPrefixOf (p := q) 101 hcon
        rw [hhead] at this
        simp at this
    have noS : ∀ p : List Nat, p.head? = some 83 →
        List.isPrefixOf p (extracted_tag_name (60 :: rest) boundary_pos) = false := by
      intro p hp
      cases p with
      | nil => simp at hp
      | cons a q =>
        simp only [List.head?] at hp
        injection hp with ha; subst ha
        by_contra hcon
        simp only [Bool.not_eq_false] at hcon
        have := head_eq_of_isPrefixOf (p := q) 83 hcon
        rw [hhead] at this
        simp at this
    have noP : ∀ p : List Nat, p.head? = some 80 →
        List.isPrefixOf p (extracted_tag_name (60 :: rest) boundary_pos) = false := by
      intro p hp
      cases p with
      | nil => simp at hp
      | cons a q =>
        simp only [List.head?] at hp
        injection hp with ha; subst ha
        by_contra hcon
        simp only [Bool.not_eq_false] at hcon
        have := head_eq_of_isPrefixOf (p := q) 80 hcon
        rw [hhead] at this
        simp at this
    rw [noRel (chBytes ("Release".toList)) rfl, noE (chBytes ("ern:Release".toList)) rfl,
      noRel (chBytes ("Resource".toList)) rfl, noE (chBytes ("ern:Resource".toList)) rfl,
      noS (chBytes ("SoundRecording".toList)) rfl, noE (chBytes ("ern:SoundRecording".toList)) rfl,
      noP (chBytes ("Party".toList)) rfl, noE (chBytes ("ern:Party".toList)) rfl, hdeal]
    simp
  · intro hparty
    have hhead : (extracted_tag_name (60 :: rest) boundary_pos).head? = some 80 :=
      head_eq_of_isPrefixOf (p := chBytes ("arty".toList)) 80 hparty
    simp only [detect_element_type_from_bytes, hlen, if_false, hbp]
    have noFirst : ∀ b : Nat, b ≠ 80 → ∀ p : List Nat, p.head? = some b →
        List.isPrefixOf p (extracted_tag_name (60 :: rest) boundary_pos) = false := by
      intro b hb p hp
      cases p with
      | nil => simp at hp
      | cons a q =>
        simp only [List.head?] at hp
        injection hp with ha; subst ha
        by_contra hcon
        simp only [Bool.not_eq_false] at hcon
        have := head_eq_of_isPrefixOf (p := q) a hcon
        rw [hhead] at this
        injection this with hv
        exact hb hv.symm
    rw [noFirst 82 (by omega) (chBytes ("Release".toList)) rfl,
      noFirst 101 (by omega) (chBytes ("ern:Release".toList)) rfl,
      noFirst 82 (by omega) (chBytes ("Resource".toList)) rfl,
      noFirst 101 (by omega) (chBytes ("ern:Resource".toList)) rfl,
      noFirst 83 (by omega) (chBytes ("SoundRecording".toList)) rfl,
      noFirst 101 (by omega) (chBytes ("ern:SoundRecording".toList)) rfl,
      hparty]
    simp
  · intro short hshort
    match short with
    | [] => rfl
    | s0 :: srest =>
      simp only [detect_element_type_from_bytes]
      rw [if_pos]
      left
      exact hshort

/-- C10 witness: concrete classifications — `<ReleaseList>` and
`<ern:ReleaseList>` are classified `Release`, `<DealList>` is
classified `Deal`, `<PartyName>` is classified `Party`, and the 7-byte
slice `<Party>` is `None`. -/
theorem c10_byte_prefix_classification_witness :
    detect_element_type_from_bytes (chBytes ("<ReleaseList>".toList)) = some FastElementType.Release
    ∧ detect_element_type_from_bytes (chBytes ("<ern:ReleaseList>".toList))
        = some FastElementType.Release
    ∧ detect_element_type_from_bytes (chBytes ("<DealList></DealList>".toList))
        = some FastElementType.Deal
    ∧ detect_element_type_from_bytes (chBytes ("<PartyName>x".toList))
        = some FastElementType.Party
    ∧ detect_element_type_from_bytes (chBytes ("<Party>".toList)) = none := by
  refine ⟨?_, ?_, ?_, ?_, ?_⟩
  · exact (c10_byte_prefix_classification (chBytes ("<ReleaseList>".toList)) 11
      (by decide) (by decide) (by decide)).1 (by decide)
  · exact (c10_byte_prefix_classification (chBytes ("<ern:ReleaseList>".toList)) 15
      (by decide) (by decide) (by decide)).2.1 (by decide)
  · exact (c10_byte_prefix_classification (chBytes ("<DealList></DealList>".toList)) 8
      (by decide) (by decide) (by decide)).2.2.1 (by decide)
  · exact (c10_byte_prefix_classification (chBytes ("<PartyName>x".toList)) 9
      (by decide) (by decide) (by decide)).2.2.2.1 (by decide)
  · exact (c10_byte_prefix_classification (chBytes ("<ReleaseList>".toList)) 11
      (by decide) (by decide) (by decide)).2.2.2.2 (chBytes ("<Party>".toList)) (by decide)

/-! ## C7 — fast streaming parse loop and resource limits -/

/-- `FastStreamingElement` (fast_streaming_parser.rs, lines 30-42); the
wall-clock `parsed_at` timestamp is omitted. -/
structure FastStreamingElement where
  element_type : FastElementType
  raw_content : List Nat
  position : Nat
  size : Nat
deriving DecidableEq, Repr

/-- `StreamingConfig` (packages/ddex-parser/src/streaming/mod.rs, lines
49-77); the nested `SecurityConfig` is not under src/ and is not read
by any embedded operation, so it is omitted. -/
structure StreamingConfig where
  buffer_size : Nat
  max_memory : Nat
  chunk_size : Nat
  enable_progress : Bool
  progress_interval : Nat
deriving DecidableEq, Repr

/-- The closing-tag patterns per element type
(fast_streaming_parser.rs, lines 224-230); the `Other` case is
handled separately. -/
def ns_closing_patterns (etype : FastElementType) : List (List Nat) :=
  match etype with
  | FastElementType.Release => [chBytes ("</ern:Release>".toList), chBytes ("</Release>".toList)]
  | FastElementType.Resource =>
    [chBytes ("</ern:Resource>".toList), chBytes ("</Resource>".toList),
      chBytes ("</ern:SoundRecording>".toList), chBytes ("</SoundRecording>".toList)]
  | FastElementType.Party => [chBytes ("</ern:Party>".toList), chBytes ("</Party>".toList)]
  | FastElementType.Deal => [chBytes ("</ern:Deal>".toList), chBytes ("</Deal>".toList)]
  | FastElementType.MessageHeader =>
    [chBytes ("</ern:MessageHeader>".toList), chBytes ("</MessageHeader>".toList)]
  | FastElementType.Other _ => []

/-- `FastStreamingParser::find_closing_tag_direct`
(fast_streaming_parser.rs, lines 222-254): for `Other(name)` build
`</clean_name>` (dropping any namespace prefix) and search once; for
the known types take the earliest end position over the candidate
closing patterns. -/
def find_closing_tag_direct (buffer : List Nat) (start : Nat)
    (etype : FastElementType) : Option Nat :=
  match etype with
  | FastElementType.Other name =>
    let clean_name := if name.contains 58 then ((splitBytes 58 name).getLast?).getD name
      else name
    let pattern := chBytes ("</".toList) ++ clean_name ++ chBytes (">".toList)
    (memFind pattern (buffer.drop start)).map (fun pos => start + pos + pattern.length - 1)
  | _ =>
    (ns_closing_patterns etype).foldl
      (fun closest pattern =>
        match memFind pattern (buffer.drop start) with
        | none => closest
        | some pos =>
          let absolute_pos := start + pos + pattern.length - 1
          some (match closest with
            | none => absolute_pos
            | some current => min current absolute_pos))
      none

/-- `FastStreamingParser::find_complete_element`
(fast_streaming_parser.rs, lines 163-179): classify at `start`, find
the matching closing tag, and cut out `buffer[start..=end_pos]`.
The Rust `Result` layer never carries an error and is elided. -/
def find_complete_element (buffer : List Nat) (start : Nat) : Option FastStreamingElement :=
  match detect_element_type_from_bytes (buffer.drop start) with
  | none => none
  | some element_type =>
    match find_closing_tag_direct buffer start element_type with
    | none => none
    | some end_pos =>
      some
        { element_type := element_type
          raw_content := (buffer.drop start).take (end_pos - start + 1)
          position := start
          size := end_pos - start + 1 }

/-- Each found element occupies at least one byte. -/
theorem find_complete_element_size_pos (buffer : List Nat) (start : Nat)
    (el : FastStreamingElement) (h : find_complete_element buffer start = some el) :
    1 ≤ el.size := by
  unfold find_complete_element at h
  rcases hdet : detect_element_type_from_bytes (buffer.drop start) with _ | et
  · simp only [hdet] at h
    exact absurd h (by simp)
  · simp only [hdet] at h
    rcases hend : find_closing_tag_direct buffer start et with _ | e
    · simp only [hend] at h
      exact absurd h (by simp)
    · simp only [hend] at h
      injection h with h
      rw [← h]
      simp

/-- The scan loop of `FastStreamingParser::parse_streaming`
(fast_streaming_parser.rs, lines 97-140): repeatedly `memchr` for `<`,
skip closing tags, and either cut a complete element or advance one
byte.  The loop variable strictly increases, so every input terminates
(this is the totality of this definition). -/
def parse_streaming_scan (buffer : List Nat) (pos : Nat) : List FastStreamingElement :=
  if hp : pos < buffer.length then
    match memFind [60] (buffer.drop pos) with
    | none => []
    | some tag_start =>
      let abs_start := pos + tag_start
      if abs_start + 1 < buffer.length ∧ buffer.getD (abs_start + 1) 0 = 47 then
        parse_streaming_scan buffer (abs_start + 1)
      else
        match hfce : find_complete_element buffer abs_start with
        | some element => element :: parse_streaming_scan buffer (abs_start + element.size)
        | none => parse_streaming_scan buffer (abs_start + 1)
  else []
termination_by buffer.length - pos
decreasing_by
  · omega
  · have := find_complete_element_size_pos buffer (pos + tag_start) element hfce
    omega
  · omega

/-- The statistics of `parse_streaming` whose values are integers (the
float throughput/time fields are wall-clock readings and are omitted).
`peak_memory_bytes` is the Rust `peak_memory_mb` numerator: the length
of the fully buffered input. -/
structure FastParsingStats where
  total_bytes : Nat
  total_elements : Nat
  peak_memory_bytes : Nat
deriving DecidableEq, Repr

/-- `FastStreamingParser::parse_streaming`
(fast_streaming_parser.rs, lines 82-160): the whole input is read into
memory (`read_to_end`) unconditionally, then scanned; no configured
limit (`max_memory`, depth, or time budget) is consulted, and the
result is always `Ok`.  The progress callback does not affect the
result and is omitted; `config` is received exactly as in the source
but never read on this path. -/
def parse_streaming (_config : StreamingConfig) (input : List Nat) :
    Except ParseError (List FastStreamingElement × FastParsingStats) :=
  let elements := parse_streaming_scan input 0
  Except.ok (elements,
    { total_bytes := input.length
      total_elements := elements.length
      peak_memory_bytes := input.length })

/-- A configuration with a 4-byte memory ceiling. -/
def tinyMemoryConfig : StreamingConfig :=
  { buffer_size := 65536, max_memory := 4, chunk_size := 512,
    enable_progress := false, progress_interval := 0 }

/-- C7 counterexample: with a configured memory ceiling of 4 bytes and
a 10-byte input, `parse_streaming` buffers all 10 bytes (its own
reported peak memory), exceeds the ceiling, and still returns success
rather than a resource-limit error — the parse does not stay within
the configured limits. -/
theorem c7_memory_ceiling_not_enforced :
    tinyMemoryConfig.max_memory = 4
    ∧ parse_streaming tinyMemoryConfig (chBytes ("aaaaaaaaaa".toList))
        = Except.ok ([], { total_bytes := 10, total_elements := 0, peak_memory_bytes := 10 })
    ∧ ¬ (10 : Nat) ≤ tinyMemoryConfig.max_memory := by
  have hfind : memFind [60] [97, 97, 97, 97, 97, 97, 97, 97, 97, 97] = none := by decide
  have hscan : parse_streaming_scan (chBytes ("aaaaaaaaaa".toList)) 0 = [] := by
    rw [parse_streaming_scan]
    simp [hfind, chBytes]
  refine ⟨rfl, ?_, by decide⟩
  simp only [parse_streaming, hscan]
  rfl

/-- C7 (amended): every parse terminates — the scan position strictly
increases, so the loop is total — and returns success for every input
and every configuration; but no configured limit is enforced: the
result is independent of the configuration, the entire input is
buffered (peak memory equals the input length, regardless of
`max_memory`), and a resource-limit error is never returned. -/
theorem c7_parse_always_terminates_without_limits
    (config other_config : StreamingConfig) (input : List Nat) :
    (∃ elements stats, parse_streaming config input = Except.ok (elements, stats)
      ∧ stats.peak_memory_bytes = input.length
      ∧ stats.total_bytes = input.length
      ∧ stats.total_elements = elements.length)
    ∧ parse_streaming config input = parse_streaming other_config input := by
  exact ⟨⟨parse_streaming_scan input 0, _, rfl, rfl, rfl, rfl⟩, rfl⟩

/-! ## C4 — iteration order of the flat view's resource mapping -/

/-- The iteration contract of Rust's `std::collections::HashMap`, the
declared type of `FlattenedMessage::resources`
(packages/core/src/models/flat/message.rs, line 47): iteration yields
every stored entry exactly once, in an arbitrary (unspecified,
per-instance randomized) order — any permutation of the entries is an
admissible iteration order. -/
def hashMapIterAdmissible {α β : Type} (entries iteration : List (α × β)) : Prop :=
  iteration.Perm entries

/-- A parsed message whose flat view holds two resources, inserted in
XML document order `A1` then `A2`. -/
def twoResourceMessage : FlattenedMessage :=
  { message_id := "MSG2".toList
    message_type := "NewReleaseMessage".toList
    message_date := "2024-01-01T00:00:00Z".toList
    sender := { name := "S".toList, id := "S1".toList }
    recipient := { name := "R".toList, id := "R1".toList }
    releases := [{ release_id := "REL1".toList, title := "Album".toList }]
    resources :=
      [("A1".toList, { resource_id := "A1".toList, title := "Track one".toList }),
        ("A2".toList, { resource_id := "A2".toList, title := "Track two".toList })]
    deals := []
    parties := []
    version := "4.3".toList
    profile := none
    stats := { release_count := 1, track_count := 2, deal_count := 0, total_duration := 0 } }

/-- C4: the declared container of the flat view's resource mapping
(`std::collections::HashMap`) admits an iteration order that differs
from XML document order — here the reversal of the two document-order
entries — so the code cannot guarantee the claimed order preservation
(the node binding, which expects an `indexmap::IndexMap` here, cannot
even typecheck against this field). -/
theorem c4_hashmap_order_not_document_order :
    hashMapIterAdmissible twoResourceMessage.resources
      [("A2".toList, { resource_id := "A2".toList, title := "Track two".toList }),
        ("A1".toList, { resource_id := "A1".toList, title := "Track one".toList })]
    ∧ [("A2".toList, ({ resource_id := "A2".toList, title := "Track two".toList } : ParsedResource)),
        ("A1".toList, { resource_id := "A1".toList, title := "Track one".toList })]
      ≠ twoResourceMessage.resources := by
  constructor
  · exact List.Perm.swap _ _ _
  · decide

/-! ## C2 — determinism of the node binding's build -/

/-- Builder node binding `Release`
(packages/ddex-builder/bindings/node/src/lib.rs, lines 7-22). -/
structure Release where
  release_id : List Char
  release_type : List Char
  title : List Char
  artist : List Char
  label : Option (List Char)
  catalog_number : Option (List Char)
  upc : Option (List Char)
  release_date : Option (List Char)
  genre : Option (List Char)
  parental_warning : Option Bool
  track_ids : List (List Char)
  metadata : Option (List (List Char × List Char))
deriving DecidableEq, Repr

/-- Builder node binding `Resource` (lines 24-36). -/
structure Resource where
  resource_id : List Char
  resource_type : List Char
  title : List Char
  artist : List Char
  isrc : Option (List Char)
  duration : Option (List Char)
  track_number : Option Int
  volume_number : Option Int
  metadata : Option (List (List Char × List Char))
deriving DecidableEq, Repr

/-- `ddex_builder::builder::LocalizedStringRequest` as used by the
binding. -/
structure LocalizedStringRequest where
  text : List Char
  language_code : Option (List Char)
deriving DecidableEq, Repr

/-- `ddex_builder::builder::PartyRequest` as used by the binding. -/
structure PartyRequest where
  party_name : List LocalizedStringRequest
  party_id : Option (List Char)
  party_reference : Option (List Char)
deriving DecidableEq, Repr

/-- `ddex_builder::builder::MessageHeaderRequest` as used by the
binding. -/
structure MessageHeaderRequest where
  message_id : Option (List Char)
  message_sender : PartyRequest
  message_recipient : PartyRequest
  message_control_type : Option (List Char)
  message_created_date_time : Option (List Char)
deriving DecidableEq, Repr

/-- `ddex_builder::builder::TrackRequest` as used by the binding. -/
structure TrackRequest where
  track_id : List Char
  resource_reference : Option (List Char)
  isrc : List Char
  title : List Char
  duration : List Char
  artist : List Char
deriving DecidableEq, Repr

/-- `ddex_builder::builder::ReleaseRequest` as used by the binding. -/
structure ReleaseRequest where
  release_id : List Char
  release_reference : Option (List Char)
  title : List LocalizedStringRequest
  artist : List Char
  label : Option (List Char)
  release_date : Option (List Char)
  upc : Option (List Char)
  tracks : List TrackRequest
  resource_references : Option (List (List Char))
deriving DecidableEq, Repr

/-- Modelled from the spec: `ddex_builder::builder::DealRequest` is
not under src/; per §3.1 a deal carries its id and referenced release
ids.  The binding always passes an empty deal list. -/
structure DealRequest where
  deal_id : List Char
  release_ids : List (List Char)
deriving DecidableEq, Repr

/-- `ddex_builder::builder::BuildRequest` as used by the binding;
`extensions` is always `None` here and carried as an opaque option. -/
structure BuildRequest where
  header : MessageHeaderRequest
  version : List Char
  profile : Option (List Char)
  releases : List ReleaseRequest
  deals : List DealRequest
  extensions : Option (List (List Char × List Char))
deriving DecidableEq, Repr

/-- `DdexBuilder::create_build_request_from_stored_data`
(packages/ddex-builder/bindings/node/src/lib.rs, lines 553-618).  The
two ambient effects of the Rust code — `uuid::Uuid::new_v4()` and
`chrono::Utc::now().to_rfc3339()`, drawn fresh on every call — are
passed in as the `uuid` and `now` arguments. -/
def create_build_request_from_stored_data (releases : List Release)
    (resources : List Resource) (uuid now : List Char) : BuildRequest :=
  { header :=
    { message_id := some uuid
      message_sender :=
        { party_name := [{ text := "DDEX Suite".toList, language_code := none }]
          party_id := none
          party_reference := none }
      message_recipient :=
        { party_name := [{ text := "Recipient".toList, language_code := none }]
          party_id := none
          party_reference := none }
      message_control_type := none
      message_created_date_time := some now }
    version := "4.3".toList
    profile := some ("AudioAlbum".toList)
    releases := releases.map (fun release =>
      { release_id := release.release_id
        release_reference := some release.release_id
        title := [{ text := release.title, language_code := none }]
        artist := release.artist
        label := release.label
        release_date := release.release_date
        upc := release.upc
        tracks := (resources.filter
            (fun resource => release.track_ids.contains resource.resource_id)).map
          (fun resource =>
            { track_id := resource.resource_id
              resource_reference := some resource.resource_id
              isrc := resource.isrc.getD ("TEMP00000000".toList)
              title := resource.title
              duration := resource.duration.getD ("PT3M00S".toList)
              artist := resource.artist })
        resource_references := some release.track_ids })
    deals := []
    extensions := none }

/-- Modelled from the spec: `ddex_builder::builder::DDEXBuilder::build`
is not under src/.  Per §4.6 it is deterministic — identical request
and options give byte-identical output — and per §3.1/§6.4 the emitted
message declares the header (message id, sender, recipient, creation
timestamp) and the releases on the wire.  This model serializes
exactly the request's fields, in request order. -/
def DDEXBuilder_build (request : BuildRequest) : List Char :=
  "<NewReleaseMessage><MessageHeader><MessageId>".toList
    ++ request.header.message_id.getD []
    ++ "</MessageId><MessageSender>".toList
    ++ (request.header.message_sender.party_name.map (·.text)).flatten
    ++ "</MessageSender><MessageRecipient>".toList
    ++ (request.header.message_recipient.party_name.map (·.text)).flatten
    ++ "</MessageRecipient><MessageCreatedDateTime>".toList
    ++ request.header.message_created_date_time.getD []
    ++ "</MessageCreatedDateTime></MessageHeader>".toList
    ++ (request.releases.map (fun release =>
        "<Release><ReleaseId>".toList ++ release.release_id
          ++ "</ReleaseId><Title>".toList ++ (release.title.map (·.text)).flatten
          ++ "</Title><Artist>".toList ++ release.artist
          ++ "</Artist>".toList
          ++ (release.tracks.map (fun track =>
              "<Track><ISRC>".toList ++ track.isrc ++ "</ISRC><TrackTitle>".toList
                ++ track.title ++ "</TrackTitle></Track>".toList)).flatten
          ++ "</Release>".toList)).flatten
    ++ "</NewReleaseMessage>".toList

/-- `DdexBuilder::build` with no explicit data
(packages/ddex-builder/bindings/node/src/lib.rs, lines 183-203): a
build request is created from the stored releases/resources — drawing
a fresh message id and timestamp — and handed to the core builder. -/
def node_build (releases : List Release) (resources : List Resource)
    (uuid now : List Char) : List Char :=
  DDEXBuilder_build (create_build_request_from_stored_data releases resources uuid now)

/-- C2 counterexample: two invocations of `build` on the same (empty)
builder state and identical options draw distinct `Uuid::new_v4`
message ids — here `u1` versus `u2` at the same timestamp — and the
emitted XML bytes differ, refuting byte-identical output across
runs. -/
theorem c2_build_not_byte_identical_across_runs :
    node_build [] [] ("u1".toList) ("2024-01-01T00:00:00+00:00".toList)
      ≠ node_build [] [] ("u2".toList) ("2024-01-01T00:00:00+00:00".toList) := by
  decide

/-- C2 (amended): for a fixed builder state the generated build
request is identical in every component except the freshly drawn
message id and creation timestamp — releases, version, profile, deals,
sender and recipient are functions of the stored state alone — and the
output bytes are a deterministic function of the request, so two
invocations agree byte-for-byte exactly when the drawn id and
timestamp coincide. -/
theorem c2_build_deterministic_given_header (releases : List Release)
    (resources : List Resource) (u1 t1 u2 t2 : List Char) :
    (create_build_request_from_stored_data releases resources u1 t1).releases
        = (create_build_request_from_stored_data releases resources u2 t2).releases
    ∧ (create_build_request_from_stored_data releases resources u1 t1).version
        = (create_build_request_from_stored_data releases resources u2 t2).version
    ∧ (create_build_request_from_stored_data releases resources u1 t1).profile
        = (create_build_request_from_stored_data releases resources u2 t2).profile
    ∧ (create_build_request_from_stored_data releases resources u1 t1).deals
        = (create_build_request_from_stored_data releases resources u2 t2).deals
    ∧ (create_build_request_from_stored_data releases resources u1 t1).header.message_sender
        = (create_build_request_from_stored_data releases resources u2 t2).header.message_sender
    ∧ (create_build_request_from_stored_data releases resources u1 t1).header.message_recipient
        = (create_build_request_from_stored_data releases resources u2 t2).header.message_recipient
    ∧ (u1 = u2 → t1 = t2 →
        node_build releases resources u1 t1 = node_build releases resources u2 t2) := by
  refine ⟨rfl, rfl, rfl, rfl, rfl, rfl, ?_⟩
  intro hu ht
  rw [hu, ht]

/-- C2 witness: the amended determinism applied at a concrete state
and coinciding header draws. -/
theorem c2_build_deterministic_given_header_witness :
    ("u1".toList = "u1".toList) ∧ ("2024".toList = "2024".toList)
    ∧ node_build [] [] ("u1".toList) ("2024".toList)
        = node_build [] [] ("u1".toList) ("2024".toList) :=
  ⟨rfl, rfl,
    (c2_build_deterministic_given_header [] [] ("u1".toList) ("2024".toList)
      ("u1".toList) ("2024".toList)).2.2.2.2.2.2 rfl rfl⟩

/-! ## C8 — diffing documents through the wasm diff viewer -/

/-- Modelled from the spec: `ddex_builder::ast::Element` is not under
src/; per §2/§4.7 an AST node carries a name, attributes, optional
text, and children.  The wasm viewer only ever constructs childless
nodes (`Element::new("Root").with_text(xml)`). -/
structure Element where
  name : List Char
  attributes : List (List Char × List Char)
  text : Option (List Char)
deriving DecidableEq, Repr

/-- Modelled from the spec: `ddex_builder::ast::AST` is not under
src/; the wasm viewer fills `namespaces` with an empty map and no
schema location. -/
structure AST where
  root : Element
  namespaces : List (List Char × List Char)
  schema_location : Option (List Char)
deriving DecidableEq, Repr

/-- `Change` types of the diff engine (spec §4.7). -/
inductive ChangeType where
  | ElementAdded
  | ElementRemoved
  | ElementModified
  | ElementRenamed
  | ElementMoved
  | AttributeAdded
  | AttributeRemoved
  | AttributeModified
  | TextModified
deriving DecidableEq, Repr

/-- A diff `Change` record (spec §4.7): type, structural path from the
root, old/new values, criticality. -/
structure Change where
  change_type : ChangeType
  path : List Char
  old_value : Option (List Char)
  new_value : Option (List Char)
  is_critical : Bool
deriving DecidableEq, Repr

/-- `DiffConfig` flags (spec §4.7). -/
structure DiffConfig where
  ignore_formatting : Bool
  ignore_reference_ids : Bool
  ignore_order_changes : Bool
deriving DecidableEq, Repr

/-- Text with all whitespace removed — the formatting-insensitive view
of a text node used under `ignore_formatting`. -/
def strip_formatting (s : List Char) : List Char :=
  s.filter (fun c => ¬ isRustWhitespace c)

/-- Spec §4.7 criticality: changes touching ISRC, UPC or release date
are critical; others are not. -/
def path_is_critical (path : List Char) : Bool :=
  rustContains ("ISRC".toList) path ∨ rustContains ("UPC".toList) path
    ∨ rustContains ("ReleaseDate".toList) path

/-- Modelled from the spec: `ddex_builder::diff::DiffEngine::diff` is
not under src/.  Per §4.7 it compares two ASTs into a typed changeset:
a renamed root yields `ElementRenamed`, attribute differences yield
attribute changes, and differing text yields `TextModified` at the
node's structural path; under `ignore_formatting`, differences that
are pure formatting (whitespace) are dropped.  Children comparison is
not exercised by the wasm viewer, whose trees are single nodes. -/
def DiffEngine_diff (config : DiffConfig) (old_ast new_ast : AST) : List Change :=
  let old_root := old_ast.root
  let new_root := new_ast.root
  let path := "/".toList ++ old_root.name
  let renames : List Change :=
    if old_root.name ≠ new_root.name then
      [{ change_type := ChangeType.ElementRenamed
         path := path
         old_value := some old_root.name
         new_value := some new_root.name
         is_critical := path_is_critical path }]
    else []
  let attr_added : List Change :=
    (new_root.attributes.filter
        (fun a => ¬ (old_root.attributes.map Prod.fst).contains a.1)).map
      (fun a =>
        { change_type := ChangeType.AttributeAdded
          path := path
          old_value := none
          new_value := some a.2
          is_critical := path_is_critical path })
  let attr_removed : List Change :=
    (old_root.attributes.filter
        (fun a => ¬ (new_root.attributes.map Prod.fst).contains a.1)).map
      (fun a =>
        { change_type := ChangeType.AttributeRemoved
          path := path
          old_value := some a.2
          new_value := none
          is_critical := path_is_critical path })
  let texts_equal : Bool :=
    if config.ignore_formatting then
      strip_formatting ((old_root.text).getD []) = strip_formatting ((new_root.text).getD [])
    else
      old_root.text = new_root.text
  let text_changes : List Change :=
    if texts_equal then []
    else
      [{ change_type := ChangeType.TextModified
         path := path
         old_value := old_root.text
         new_value := new_root.text
         is_critical := path_is_critical path }]
  renames ++ attr_added ++ attr_removed ++ text_changes

/-- `DdexDiffViewer::parse_xml_simple`
(packages/ddex-builder/bindings/wasm/src/diff_viewer.rs, lines
102-112): no XML parsing happens — the entire input document becomes
the text of a single `Root` element. -/
def parse_xml_simple (xml : List Char) : AST :=
  { root := { name := "Root".toList, attributes := [], text := some xml }
    namespaces := []
    schema_location := none }

/-- The changeset computed by `DdexDiffViewer::diff_to_json`
(diff_viewer.rs, lines 57-69): both documents go through
`parse_xml_simple`, then the diff engine. -/
def diff_to_json_changeset (config : DiffConfig) (old_xml new_xml : List Char) : List Change :=
  DiffEngine_diff config (parse_xml_simple old_xml) (parse_xml_simple new_xml)

/-- C8 counterexample: for two documents differing only in
`<Comment>…</Comment>` content, the viewer reports a non-empty
changeset even with `ignore_formatting = true` (the claim requires an
empty one), and with `ignore_formatting = false` the single
`TextModified` change carries path `/Root` — the whole document is one
text blob, so the change cannot carry the comment element's structural
path. -/
theorem c8_comment_diff_not_structural :
    diff_to_json_changeset
        { ignore_formatting := true, ignore_reference_ids := false, ignore_order_changes := false }
        ("<Msg><Comment>a</Comment></Msg>".toList)
        ("<Msg><Comment>b</Comment></Msg>".toList) ≠ []
    ∧ diff_to_json_changeset
        { ignore_formatting := false, ignore_reference_ids := false, ignore_order_changes := false }
        ("<Msg><Comment>a</Comment></Msg>".toList)
        ("<Msg><Comment>b</Comment></Msg>".toList)
      = [{ change_type := ChangeType.TextModified
           path := "/Root".toList
           old_value := some ("<Msg><Comment>a</Comment></Msg>".toList)
           new_value := some ("<Msg><Comment>b</Comment></Msg>".toList)
           is_critical := false }]
    ∧ "/Root".toList ≠ "/Msg/Comment".toList := by
  refine ⟨?_, by decide, by decide⟩
  decide

/-- C8 (amended): identical documents diff to the empty changeset, and
any two documents whose whitespace-stripped bytes differ — in
particular two differing only in `<Comment>…</Comment>` content —
diff to exactly one `TextModified` change at path `/Root`, under
either `ignore_formatting` setting: the viewer wraps each whole
document as the text of a single `Root` node, so no structural path
into the document is ever produced. -/
theorem c8_diff_collapses_to_root (config : DiffConfig) (old_xml new_xml : List Char)
    (hne : strip_formatting old_xml ≠ strip_formatting new_xml) :
    diff_to_json_changeset config old_xml old_xml = []
    ∧ diff_to_json_changeset config old_xml new_xml
      = [{ change_type := ChangeType.TextModified
           path := "/Root".toList
           old_value := some old_xml
           new_value := some new_xml
           is_critical := false }] := by
  have hne2 : old_xml ≠ new_xml := by
    intro h; exact hne (by rw [h])
  constructor
  · simp [diff_to_json_changeset, DiffEngine_diff, parse_xml_simple]
  · simp only [diff_to_json_changeset, DiffEngine_diff, parse_xml_simple]
    cases hcf : config.ignore_formatting <;>
      simp [hcf, hne, hne2, path_is_critical, rustContains] <;> decide

/-- C8 witness: the amended statement at the concrete pair of
documents differing only in comment content. -/
theorem c8_diff_collapses_to_root_witness :
    strip_formatting ("<Msg><Comment>a</Comment></Msg>".toList)
        ≠ strip_formatting ("<Msg><Comment>b</Comment></Msg>".toList)
    ∧ diff_to_json_changeset
        { ignore_formatting := true, ignore_reference_ids := true, ignore_order_changes := true }
        ("<Msg><Comment>a</Comment></Msg>".toList)
        ("<Msg><Comment>a</Comment></Msg>".toList) = [] :=
  ⟨by decide,
    (c8_diff_collapses_to_root
      { ignore_formatting := true, ignore_reference_ids := true, ignore_order_changes := true }
      ("<Msg><Comment>a</Comment></Msg>".toList)
      ("<Msg><Comment>b</Comment></Msg>".toList) (by decide)).1⟩

/-! ## C6 — DB-C14N canonicalization idempotence (wasm builder)

The embedded functions follow
packages/ddex-builder/bindings/wasm/src/lib.rs: `canonicalize_xml`
(lines 600-615), `apply_db_c14n_canonicalization` (lines 839-862) and
`apply_c14n_canonicalization` (lines 864-879).  Note that Rust's
`str::replace` performs literal substring replacement, so the
regex-looking pattern below is matched verbatim. -/

/-- The literal `from` pattern of the attribute-reordering `replace`
call (lines 854-857). -/
def db_c14n_attr_pattern : List Char :=
  "BusinessTransactionId=\"([^\"]*)\" MessageSchemaVersionId=\"([^\"]*)\"".toList

/-- The literal `to` replacement of the attribute-reordering `replace`
call. -/
def db_c14n_attr_replacement : List Char :=
  "MessageSchemaVersionId=\"$2\" BusinessTransactionId=\"$1\"".toList

/-- The whitespace pass of `apply_db_c14n_canonicalization` (lines
845-850): split on newlines, trim each line, drop empty lines, and
join with no separator. -/
def db_c14n_line_step (s : List Char) : List Char :=
  (((rustSplit '\n' s).map rustTrim).filter (fun line => line ≠ [])).flatten

/-- The attribute pass of `apply_db_c14n_canonicalization` (lines
852-858): when both attribute names occur, run the literal
replacement. -/
def db_c14n_attr_step (s : List Char) : List Char :=
  if rustContains ("MessageSchemaVersionId".toList) s
      ∧ rustContains ("BusinessTransactionId".toList) s then
    rustReplace db_c14n_attr_pattern db_c14n_attr_replacement s
  else s

/-- `WasmDdexBuilder::apply_db_c14n_canonicalization` (lines 839-862). -/
def apply_db_c14n_canonicalization (xml : List Char) : List Char :=
  db_c14n_attr_step (db_c14n_line_step xml)

/-- `WasmDdexBuilder::apply_c14n_canonicalization` (lines 864-879):
strip a leading XML declaration, then normalize line endings. -/
def apply_c14n_canonicalization (xml : List Char) : List Char :=
  let decl := "<?xml version=\"1.0\" encoding=\"UTF-8\"?>".toList
  let canonical :=
    if decl.isPrefixOf xml then
      rustTrimStart (rustReplace decl [] xml)
    else xml
  rustReplace ("\r".toList) ("\n".toList) (rustReplace ("\r\n".toList) ("\n".toList) canonical)

/-- `WasmDdexBuilder::canonicalize_xml` (lines 600-615): dispatch on
the algorithm name; unknown algorithms are an error. -/
def canonicalize_xml (xml canonicalization : List Char) : Except (List Char) (List Char) :=
  if canonicalization = "db_c14n".toList then
    Except.ok (apply_db_c14n_canonicalization xml)
  else if canonicalization = "c14n".toList then
    Except.ok (apply_c14n_canonicalization xml)
  else if canonicalization = "none".toList then
    Except.ok xml
  else
    Except.error ("Unsupported canonicalization algorithm".toList)

/-! ### Helper lemmas: split, trim, flatten -/

/-- `rustSplit` never returns the empty list of pieces. -/
theorem rustSplit_ne_nil (sep : Char) (s : List Char) : rustSplit sep s ≠ [] := by
  induction s with
  | nil => simp [rustSplit]
  | cons c t ih =>
    simp only [rustSplit]
    split
    · simp
    · rcases h : rustSplit sep t with _ | ⟨p, r⟩
      · exact absurd h ih
      · simp

/-- No piece produced by `rustSplit` contains the separator. -/
theorem rustSplit_not_mem_sep (sep : Char) (s : List Char) :
    ∀ piece ∈ rustSplit sep s, sep ∉ piece := by
  induction s with
  | nil =>
    intro piece hp
    have hpe : piece = [] := by simpa [rustSplit] using hp
    subst hpe
    simp
  | cons c t ih =>
    intro piece hp
    simp only [rustSplit] at hp
    by_cases hc : c = sep
    · rw [if_pos hc, List.mem_cons] at hp
      rcases hp with hp | hp
      · simp [hp]
      · exact ih piece hp
    · rw [if_neg hc] at hp
      rcases h : rustSplit sep t with _ | ⟨p, r⟩
      · exact absurd h (rustSplit_ne_nil sep t)
      · rw [h, List.mem_cons] at hp
        rcases hp with hp | hp
        · subst hp
          intro hmem
          rw [List.mem_cons] at hmem
          rcases hmem with hmem | hmem
          · exact hc hmem.symm
          · exact ih p (by rw [h]; exact List.mem_cons_self p r) hmem
        · exact ih piece (by rw [h]; exact List.mem_cons_of_mem p hp)

/-- Splitting a separator-free string yields that single piece. -/
theorem rustSplit_eq_singleton (sep : Char) (s : List Char) (h : sep ∉ s) :
    rustSplit sep s = [s] := by
  induction s with
  | nil => rfl
  | cons c t ih =>
    have hc : ¬ c = sep := by
      intro hc; exact h (by simp [hc])
    have ht : sep ∉ t := by
      intro hm; exact h (List.mem_cons_of_mem c hm)
    simp only [rustSplit, if_neg hc, ih ht]

/-- The head of `dropWhile` does not satisfy the predicate. -/
theorem head_dropWhile_not {α : Type} (p : α → Bool) (l : List α) :
    ∀ c, (l.dropWhile p).head? = some c → p c = false := by
  induction l with
  | nil => intro c h; simp [List.dropWhile] at h
  | cons a t ih =>
    intro c h
    by_cases hp : p a
    · rw [List.dropWhile_cons_of_pos hp] at h
      exact ih c h
    · rw [List.dropWhile_cons_of_neg hp] at h
      simp only [List.head?] at h
      injection h with h
      subst h
      exact Bool.of_not_eq_true hp

/-- `dropWhile` is unchanged when the head does not satisfy the
predicate. -/
theorem dropWhile_eq_self_of_head {α : Type} (p : α → Bool) (l : List α)
    (h : ∀ c, l.head? = some c → p c = false) : l.dropWhile p = l := by
  cases l with
  | nil => rfl
  | cons a t =>
    have := h a rfl
    rw [List.dropWhile_cons_of_neg (by simp [this])]

/-- `rustTrimEnd` is a prefix of its argument. -/
theorem rustTrimEnd_prefix_self (s : List Char) : rustTrimEnd s <+: s := by
  have hsuf : s.reverse.dropWhile isRustWhitespace <:+ s.reverse := List.dropWhile_suffix _
  have := List.reverse_prefix.mpr (by simpa using hsuf)
  simpa [rustTrimEnd] using this

/-- The last element of `rustTrimEnd` is not whitespace. -/
theorem rustTrimEnd_getLast (s : List Char) :
    ∀ c, (rustTrimEnd s).getLast? = some c → isRustWhitespace c = false := by
  intro c h
  rw [rustTrimEnd, List.getLast?_reverse] at h
  exact head_dropWhile_not _ _ c h

/-- A nonempty prefix shares its head with the whole list. -/
theorem head_eq_of_list_prefix {α : Type} {p l : List α} (h : p <+: l) (hne : p ≠ []) :
    p.head? = l.head? := by
  obtain ⟨t, rfl⟩ := h
  cases p with
  | nil => exact absurd rfl hne
  | cons a u => simp

/-- `rustTrimEnd` keeps the head of its argument while nonempty. -/
theorem rustTrimEnd_head (s : List Char) (hne : rustTrimEnd s ≠ []) :
    (rustTrimEnd s).head? = s.head? :=
  head_eq_of_list_prefix (rustTrimEnd_prefix_self s) hne

/-- `rustTrim` output: the head is not whitespace. -/
theorem rustTrim_head (s : List Char) :
    ∀ c, (rustTrim s).head? = some c → isRustWhitespace c = false := by
  intro c h
  have hne : rustTrimEnd (rustTrimStart s) ≠ [] := by
    intro hnil; rw [rustTrim, hnil] at h; simp at h
  rw [rustTrim, rustTrimEnd_head _ hne] at h
  exact head_dropWhile_not _ _ c h

/-- `rustTrim` output: the last element is not whitespace. -/
theorem rustTrim_getLast (s : List Char) :
    ∀ c, (rustTrim s).getLast? = some c → isRustWhitespace c = false :=
  fun c h => rustTrimEnd_getLast (rustTrimStart s) c (by rw [rustTrim] at h; exact h)

/-- `rustTrim` only keeps characters of its argument. -/
theorem rustTrim_mem (s : List Char) : ∀ c ∈ rustTrim s, c ∈ s := by
  intro c hc
  rw [rustTrim, rustTrimEnd] at hc
  rw [List.mem_reverse] at hc
  have h1 := (List.dropWhile_sublist (l := (rustTrimStart s).reverse)
    (p := isRustWhitespace)).mem hc
  rw [List.mem_reverse, rustTrimStart] at h1
  exact (List.dropWhile_sublist _).mem h1

/-- A string whose head and last element are not whitespace is fixed
by `rustTrim`. -/
theorem rustTrim_eq_self (s : List Char)
    (hh : ∀ c, s.head? = some c → isRustWhitespace c = false)
    (hl : ∀ c, s.getLast? = some c → isRustWhitespace c = false) :
    rustTrim s = s := by
  have h1 : rustTrimStart s = s := dropWhile_eq_self_of_head _ _ hh
  rw [rustTrim, h1, rustTrimEnd]
  have h2 : s.reverse.dropWhile isRustWhitespace = s.reverse := by
    refine dropWhile_eq_self_of_head _ _ ?_
    intro c hc
    rw [List.head?_reverse] at hc
    exact hl c hc
  rw [h2, List.reverse_reverse]

/-- The head of an append with nonempty first part. -/
theorem head_append_left {α : Type} (p x : List α) (h : p ≠ []) :
    (p ++ x).head? = p.head? := by
  cases p with
  | nil => exact absurd rfl h
  | cons a u => simp

/-- The last element of an append with nonempty second part. -/
theorem getLast_append_right {α : Type} (l₁ l₂ : List α) (h : l₂ ≠ []) :
    (l₁ ++ l₂).getLast? = l₂.getLast? := by
  have h1 : (l₁ ++ l₂).reverse.head? = (l₁ ++ l₂).getLast? := List.head?_reverse _
  rw [← h1, List.reverse_append, head_append_left _ _ (by simpa using h)]
  exact List.head?_reverse _

/-- Heads of a flattened list come from one of its nonempty pieces. -/
theorem flatten_head_mem {α : Type} (ps : List (List α)) (hne : ∀ p ∈ ps, p ≠ []) :
    ∀ c, ps.flatten.head? = some c → ∃ p ∈ ps, p.head? = some c := by
  induction ps with
  | nil => intro c h; simp at h
  | cons p ps ih =>
    intro c h
    rw [List.flatten_cons, head_append_left _ _ (hne p (List.mem_cons_self p ps))] at h
    exact ⟨p, List.mem_cons_self p ps, h⟩

/-- The last element of a nonempty-piece flattening comes from one of
the pieces. -/
theorem flatten_getLast_mem {α : Type} (ps : List (List α)) (hne : ∀ p ∈ ps, p ≠ []) :
    ∀ c, ps.flatten.getLast? = some c → ∃ p ∈ ps, p.getLast? = some c := by
  induction ps with
  | nil => intro c h; simp at h
  | cons p ps ih =>
    intro c h
    rw [List.flatten_cons] at h
    rcases hf : ps.flatten with _ | ⟨b, v⟩
    · rw [hf, List.append_nil] at h
      exact ⟨p, List.mem_cons_self p ps, h⟩
    · rw [hf, getLast_append_right _ _ (by simp), ← hf] at h
      obtain ⟨q, hq, hqc⟩ := ih (fun q hq => hne q (List.mem_cons_of_mem p hq)) c h
      exact ⟨q, List.mem_cons_of_mem p hq, hqc⟩

/-- The invariant the idempotence argument tracks: no raw newline, and
no whitespace at either end. -/
def canonInv (u : List Char) : Prop :=
  ('\n' ∉ u)
    ∧ (∀ c, u.head? = some c → isRustWhitespace c = false)
    ∧ (∀ c, u.getLast? = some c → isRustWhitespace c = false)

/-- Every piece surviving the line step is the trim of a newline-free
line. -/
theorem line_step_piece_shape (s : List Char) (p : List Char)
    (hp : p ∈ ((rustSplit '\n' s).map rustTrim).filter (fun line => line ≠ [])) :
    p ≠ [] ∧ ∃ line ∈ rustSplit '\n' s, p = rustTrim line := by
  rw [List.mem_filter] at hp
  obtain ⟨hmem, hne⟩ := hp
  rw [List.mem_map] at hmem
  obtain ⟨line, hline, hEq⟩ := hmem
  exact ⟨by simpa using hne, line, hline, hEq.symm⟩

/-- The line step establishes the invariant. -/
theorem line_step_canonInv (s : List Char) : canonInv (db_c14n_line_step s) := by
  refine ⟨?_, ?_, ?_⟩
  · intro hmem
    rw [db_c14n_line_step, List.mem_flatten] at hmem
    obtain ⟨p, hp, hc⟩ := hmem
    obtain ⟨-, line, hline, rfl⟩ := line_step_piece_shape s p hp
    exact rustSplit_not_mem_sep '\n' s line hline (rustTrim_mem line '\n' hc)
  · intro c hc
    rw [db_c14n_line_step] at hc
    obtain ⟨p, hp, hpc⟩ := flatten_head_mem _
      (fun p hp => (line_step_piece_shape s p hp).1) c hc
    obtain ⟨-, line, hline, rfl⟩ := line_step_piece_shape s p hp
    exact rustTrim_head line c hpc
  · intro c hc
    rw [db_c14n_line_step] at hc
    obtain ⟨p, hp, hpc⟩ := flatten_getLast_mem _
      (fun p hp => (line_step_piece_shape s p hp).1) c hc
    obtain ⟨-, line, hline, rfl⟩ := line_step_piece_shape s p hp
    exact rustTrim_getLast line c hpc

/-- The line step fixes any string satisfying the invariant. -/
theorem line_step_eq_self (u : List Char) (h : canonInv u) : db_c14n_line_step u = u := by
  obtain ⟨hnl, hh, hl⟩ := h
  rw [db_c14n_line_step, rustSplit_eq_singleton '\n' u hnl]
  rw [List.map_singleton, rustTrim_eq_self u hh hl]
  cases hu : u with
  | nil => rfl
  | cons a t => simp

/-! ### Helper lemmas: literal replacement -/

/-- The attribute pattern is nonempty. -/
theorem attr_pattern_ne_nil : db_c14n_attr_pattern ≠ [] := by decide

/-- The attribute replacement is nonempty. -/
theorem attr_replacement_ne_nil : db_c14n_attr_replacement ≠ [] := by decide

/-- The attribute pattern has 64 characters. -/
theorem attr_pattern_length : db_c14n_attr_pattern.length = 64 := by decide

/-- The attribute replacement has 54 characters. -/
theorem attr_replacement_length : db_c14n_attr_replacement.length = 54 := by decide

/-- No short suffix of the pattern is a prefix of the replacement. -/
theorem attr_overlap_a1 : ∀ k, k < 64 → 10 ≤ k →
    ¬ (db_c14n_attr_pattern.drop k <+: db_c14n_attr_replacement) := by decide

/-- The replacement is not a prefix of any long suffix of the pattern. -/
theorem attr_overlap_a2 : ∀ k, k < 10 →
    ¬ (db_c14n_attr_replacement <+: db_c14n_attr_pattern.drop k) := by decide

/-- No nonempty suffix of the replacement is a prefix of the pattern. -/
theorem attr_overlap_b : ∀ j, j < 54 →
    ¬ (db_c14n_attr_replacement.drop j <+: db_c14n_attr_pattern) := by decide

/-- Replacement with a nonempty pattern fixes the empty string. -/
theorem replace_nil (pat rep : List Char) (hp : pat ≠ []) :
    rustReplace pat rep [] = [] := by
  rw [rustReplace]
  simp [List.isEmpty_iff, hp]

/-- Unfolding `rustReplace` at a match site. -/
theorem replace_cons_pos (pat rep : List Char) (c : Char) (t : List Char)
    (hp : pat ≠ []) (hm : pat.isPrefixOf (c :: t)) :
    rustReplace pat rep (c :: t) = rep ++ rustReplace pat rep ((c :: t).drop pat.length) := by
  rw [rustReplace, dif_pos ⟨hp, hm⟩]

/-- Unfolding `rustReplace` where the pattern does not match. -/
theorem replace_cons_neg (pat rep : List Char) (c : Char) (t : List Char)
    (hp : pat ≠ []) (hm : ¬ pat.isPrefixOf (c :: t)) :
    rustReplace pat rep (c :: t) = c :: rustReplace pat rep t := by
  rw [rustReplace, dif_neg (by tauto), if_neg hp]

/-- A prefix of an append no longer than the first part is a prefix of
that part. -/
theorem prefix_of_append_of_le {α : Type} {p a b : List α} (h : p <+: a ++ b)
    (hle : p.length ≤ a.length) : p <+: a := by
  rw [List.prefix_iff_eq_take] at h
  rw [List.take_append_eq_append_take, Nat.sub_eq_zero_of_le hle, List.take_zero,
    List.append_nil] at h
  rw [h]
  exact List.take_prefix _ a

/-- A prefix of an append at least as long as the first part extends
that part. -/
theorem append_prefix_of_ge {α : Type} {p a b : List α} (h : p <+: a ++ b)
    (hle : a.length ≤ p.length) : a <+: p := by
  rw [List.prefix_iff_eq_take] at h
  rw [List.take_append_eq_append_take, List.take_of_length_le hle] at h
  exact ⟨_, h.symm⟩

/-- Transfer of pattern-suffix prefixes through the replacement: if a
suffix of the attribute pattern starts the replaced string, it already
started the original (no replacement boundary can fabricate one,
because no pattern suffix overlaps the replacement). -/
theorem attr_drop_transfer : ∀ n (s : List Char), s.length ≤ n → ∀ k, k < 64 →
    db_c14n_attr_pattern.drop k <+:
      rustReplace db_c14n_attr_pattern db_c14n_attr_replacement s →
    db_c14n_attr_pattern.drop k <+: s := by
  intro n
  induction n with
  | zero =>
    intro s hs k hk hpre
    have hsnil : s = [] := List.eq_nil_of_length_eq_zero (Nat.le_zero.mp hs)
    subst hsnil
    rw [replace_nil _ _ attr_pattern_ne_nil] at hpre
    have hdr := List.prefix_nil.mp hpre
    have hlen : (db_c14n_attr_pattern.drop k).length = 64 - k := by
      rw [List.length_drop, attr_pattern_length]
    rw [hdr] at hlen
    simp at hlen
    omega
  | succ n ih =>
    intro s hs k hk hpre
    cases s with
    | nil =>
      rw [replace_nil _ _ attr_pattern_ne_nil] at hpre
      have hdr := List.prefix_nil.mp hpre
      have hlen : (db_c14n_attr_pattern.drop k).length = 64 - k := by
        rw [List.length_drop, attr_pattern_length]
      rw [hdr] at hlen
      simp at hlen
      omega
    | cons c t =>
      by_cases hm : db_c14n_attr_pattern.isPrefixOf (c :: t)
      · rw [replace_cons_pos _ _ _ _ attr_pattern_ne_nil hm] at hpre
        by_cases hkk : 10 ≤ k
        · have hle : (db_c14n_attr_pattern.drop k).length ≤ db_c14n_attr_replacement.length := by
            rw [List.length_drop, attr_pattern_length, attr_replacement_length]; omega
          exact absurd (prefix_of_append_of_le hpre hle) (attr_overlap_a1 k hk hkk)
        · push_neg at hkk
          have hge : db_c14n_attr_replacement.length ≤ (db_c14n_attr_pattern.drop k).length := by
            rw [List.length_drop, attr_pattern_length, attr_replacement_length]; omega
          exact absurd (append_prefix_of_ge hpre hge) (attr_overlap_a2 k hkk)
      · rw [replace_cons_neg _ _ _ _ attr_pattern_ne_nil hm] at hpre
        have hk64 : k < db_c14n_attr_pattern.length := by rw [attr_pattern_length]; exact hk
        rw [List.drop_eq_getElem_cons hk64] at hpre ⊢
        rw [List.cons_prefix_cons] at hpre ⊢
        obtain ⟨hc, hrest⟩ := hpre
        refine ⟨hc, ?_⟩
        by_cases hk1 : k + 1 < 64
        · have ht : t.length ≤ n := by
            simp only [List.length_cons] at hs; omega
          exact ih t ht (k + 1) hk1 hrest
        · have hdra : db_c14n_attr_pattern.drop (k + 1) = [] := by
            apply List.drop_eq_nil_of_le
            rw [attr_pattern_length]; omega
          rw [hdra]
          exact List.nil_prefix

/-- The replaced string contains no occurrence of the pattern at any
position. -/
theorem attr_no_occurrence : ∀ n (s : List Char), s.length ≤ n → ∀ j,
    ¬ db_c14n_attr_pattern <+:
      (rustReplace db_c14n_attr_pattern db_c14n_attr_replacement s).drop j := by
  intro n
  induction n with
  | zero =>
    intro s hs j hpre
    have hsnil : s = [] := List.eq_nil_of_length_eq_zero (Nat.le_zero.mp hs)
    subst hsnil
    rw [replace_nil _ _ attr_pattern_ne_nil, List.drop_nil] at hpre
    exact attr_pattern_ne_nil (List.prefix_nil.mp hpre)
  | succ n ih =>
    intro s hs j hpre
    cases s with
    | nil =>
      rw [replace_nil _ _ attr_pattern_ne_nil, List.drop_nil] at hpre
      exact attr_pattern_ne_nil (List.prefix_nil.mp hpre)
    | cons c t =>
      by_cases hm : db_c14n_attr_pattern.isPrefixOf (c :: t)
      · rw [replace_cons_pos _ _ _ _ attr_pattern_ne_nil hm,
          List.drop_append_eq_append_drop] at hpre
        have hrec : ((c :: t).drop db_c14n_attr_pattern.length).length ≤ n := by
          simp only [List.length_drop, List.length_cons, attr_pattern_length]
          simp only [List.length_cons] at hs
          omega
        by_cases hj : 54 ≤ j
        · have h1 : db_c14n_attr_replacement.drop j = [] := by
            apply List.drop_eq_nil_of_le
            rw [attr_replacement_length]; omega
          have h2 : j - db_c14n_attr_replacement.length = j - 54 := by
            rw [attr_replacement_length]
          rw [h1, h2, List.nil_append] at hpre
          exact ih _ hrec (j - 54) hpre
        · push_neg at hj
          have h2 : j - db_c14n_attr_replacement.length = 0 := by
            rw [attr_replacement_length]; omega
          rw [h2, List.drop_zero] at hpre
          have hge : (db_c14n_attr_replacement.drop j).length ≤ db_c14n_attr_pattern.length := by
            rw [List.length_drop, attr_pattern_length, attr_replacement_length]; omega
          exact absurd (append_prefix_of_ge hpre hge) (attr_overlap_b j hj)
      · rw [replace_cons_neg _ _ _ _ attr_pattern_ne_nil hm] at hpre
        have ht : t.length ≤ n := by
          simp only [List.length_cons] at hs; omega
        cases j with
        | zero =>
          rw [List.drop_zero] at hpre
          have h064 : (0 : Nat) < db_c14n_attr_pattern.length := by
            rw [attr_pattern_length]; omega
          rw [← List.drop_zero db_c14n_attr_pattern,
            List.drop_eq_getElem_cons h064, List.cons_prefix_cons] at hpre
          obtain ⟨hc, hrest⟩ := hpre
          have htr := attr_drop_transfer t.length t le_rfl 1 (by omega) hrest
          apply hm
          rw [List.isPrefixOf_iff_prefix, ← List.drop_zero db_c14n_attr_pattern,
            List.drop_eq_getElem_cons h064, List.cons_prefix_cons]
          exact ⟨hc, htr⟩
        | succ j2 =>
          rw [List.drop_succ_cons] at hpre
          exact ih t ht j2 hpre

/-- A string with no occurrence of the pattern is fixed by
`rustReplace`. -/
theorem replace_eq_self_of_no_occurrence (pat rep : List Char) (hp : pat ≠ []) :
    ∀ s, (∀ j, ¬ pat <+: s.drop j) → rustReplace pat rep s = s := by
  intro s
  induction s with
  | nil => intro _; exact replace_nil pat rep hp
  | cons c t ih =>
    intro h
    have h0 : ¬ pat.isPrefixOf (c :: t) := by
      rw [List.isPrefixOf_iff_prefix]
      simpa using h 0
    rw [replace_cons_neg pat rep c t hp h0]
    rw [ih (fun j => by simpa using h (j + 1))]

/-- `rustReplace` either leaves its input unchanged or inserts the
replacement somewhere in its output. -/
theorem replace_eq_or_infix (pat rep : List Char) (hp : pat ≠ []) :
    ∀ s, rustReplace pat rep s = s ∨ rep <:+: rustReplace pat rep s := by
  intro s
  induction s with
  | nil => left; exact replace_nil pat rep hp
  | cons c t ih =>
    by_cases hm : pat.isPrefixOf (c :: t)
    · right
      rw [replace_cons_pos pat rep c t hp hm]
      exact (List.prefix_append rep _).isInfix
    · rw [replace_cons_neg pat rep c t hp hm]
      rcases ih with h | h
      · left; rw [h]
      · right
        exact h.trans (List.suffix_cons c _).isInfix

/-- `rustReplace` introduces no character beyond the input and the
replacement. -/
theorem replace_not_mem (pat rep : List Char) (hp : pat ≠ []) (ch : Char)
    (hrep : ch ∉ rep) : ∀ n (s : List Char), s.length ≤ n → ch ∉ s →
    ch ∉ rustReplace pat rep s := by
  intro n
  induction n with
  | zero =>
    intro s hs hsm
    have hsnil : s = [] := List.eq_nil_of_length_eq_zero (Nat.le_zero.mp hs)
    subst hsnil
    rw [replace_nil _ _ hp]
    simp
  | succ n ih =>
    intro s hs hsm
    cases s with
    | nil =>
      rw [replace_nil _ _ hp]
      simp
    | cons c t =>
      by_cases hm : pat.isPrefixOf (c :: t)
      · rw [replace_cons_pos _ _ _ _ hp hm]
        intro hmem
        rw [List.mem_append] at hmem
        rcases hmem with hmem | hmem
        · exact hrep hmem
        · have hrec : ((c :: t).drop pat.length).length ≤ n := by
            simp only [List.length_drop, List.length_cons]
            simp only [List.length_cons] at hs
            have : 0 < pat.length := List.length_pos.mpr hp
            omega
          exact ih _ hrec (fun hx => hsm (List.mem_of_mem_drop hx)) hmem
      · rw [replace_cons_neg _ _ _ _ hp hm]
        intro hmem
        rw [List.mem_cons] at hmem
        rcases hmem with hmem | hmem
        · exact hsm (by rw [hmem]; exact List.mem_cons_self c t)
        · have ht : t.length ≤ n := by
            simp only [List.length_cons] at hs; omega
          exact ih t ht (fun hx => hsm (List.mem_cons_of_mem c hx)) hmem

/-- `rustReplace` of a nonempty string is nonempty when the
replacement is nonempty. -/
theorem replace_ne_nil (pat rep : List Char) (hp : pat ≠ []) (hr : rep ≠ [])
    (s : List Char) (hs : s ≠ []) :
    rustReplace pat rep s ≠ [] := by
  cases s with
  | nil => exact absurd rfl hs
  | cons c t =>
    by_cases hm : pat.isPrefixOf (c :: t)
    · rw [replace_cons_pos _ _ _ _ hp hm]
      simp [hr]
    · rw [replace_cons_neg _ _ _ _ hp hm]
      simp

/-- The head of `rustReplace` output is the replacement's head or the
input's head. -/
theorem replace_head (pat rep : List Char) (hp : pat ≠ []) (hr : rep ≠ [])
    (s : List Char) (hs : s ≠ []) :
    (rustReplace pat rep s).head? = rep.head? ∨ (rustReplace pat rep s).head? = s.head? := by
  cases s with
  | nil => exact absurd rfl hs
  | cons c t =>
    by_cases hm : pat.isPrefixOf (c :: t)
    · left
      rw [replace_cons_pos _ _ _ _ hp hm]
      exact head_append_left _ _ hr
    · right
      rw [replace_cons_neg _ _ _ _ hp hm]
      rfl

/-- A nonempty drop keeps the last element. -/
theorem getLast_drop_of_ne_nil {α : Type} (s : List α) (k : Nat) (h : s.drop k ≠ []) :
    (s.drop k).getLast? = s.getLast? := by
  have hsuf : s.drop k <:+ s := List.drop_suffix k s
  obtain ⟨t, ht⟩ := hsuf
  have := getLast_append_right t (s.drop k) h
  rw [ht] at this
  exact this.symm

/-- The last element of a cons with nonempty tail. -/
theorem getLast_cons_of_ne_nil {α : Type} (c : α) (u : List α) (h : u ≠ []) :
    (c :: u).getLast? = u.getLast? :=
  getLast_append_right [c] u h

/-- The last element of `rustReplace` output is the replacement's last
element or the input's. -/
theorem replace_getLast (pat rep : List Char) (hp : pat ≠ []) (hr : rep ≠ []) :
    ∀ n (s : List Char), s.length ≤ n → s ≠ [] →
    (rustReplace pat rep s).getLast? = rep.getLast?
      ∨ (rustReplace pat rep s).getLast? = s.getLast? := by
  intro n
  induction n with
  | zero =>
    intro s hs hsne
    have : s = [] := List.eq_nil_of_length_eq_zero (Nat.le_zero.mp hs)
    exact absurd this hsne
  | succ n ih =>
    intro s hs hsne
    cases s with
    | nil => exact absurd rfl hsne
    | cons c t =>
      by_cases hm : pat.isPrefixOf (c :: t)
      · rw [replace_cons_pos _ _ _ _ hp hm]
        rcases hu : rustReplace pat rep ((c :: t).drop pat.length) with _ | ⟨b, v⟩
        · left
          rw [List.append_nil]
        · rw [← hu, getLast_append_right _ _ (by rw [hu]; simp)]
          have hsd : (c :: t).drop pat.length ≠ [] := by
            intro hnil
            rw [hnil, replace_nil _ _ hp] at hu
            exact absurd hu.symm (by simp)
          have hrec : ((c :: t).drop pat.length).length ≤ n := by
            simp only [List.length_drop, List.length_cons]
            simp only [List.length_cons] at hs
            have : 0 < pat.length := List.length_pos.mpr hp
            omega
          rcases ih _ hrec hsd with h | h
          · left; exact h
          · right
            rw [h]
            exact getLast_drop_of_ne_nil _ _ hsd
      · rw [replace_cons_neg _ _ _ _ hp hm]
        by_cases htne : t = []
        · right
          subst htne
          rw [replace_nil _ _ hp]
        · have hune : rustReplace pat rep t ≠ [] := replace_ne_nil pat rep hp hr t htne
          rw [getLast_cons_of_ne_nil _ _ hune, getLast_cons_of_ne_nil _ _ htne]
          have htl : t.length ≤ n := by
            simp only [List.length_cons] at hs
            omega
          exact ih t htl htne

/-- The attribute step preserves the invariant. -/
theorem attr_step_canonInv (u : List Char) (h : canonInv u) :
    canonInv (db_c14n_attr_step u) := by
  obtain ⟨hnl, hh, hl⟩ := h
  rw [db_c14n_attr_step]
  split
  · rcases hu : u with _ | ⟨c, t⟩
    · rw [replace_nil _ _ attr_pattern_ne_nil]
      exact ⟨by simp, by intro c hc; simp at hc, by intro c hc; simp at hc⟩
    · rw [← hu]
      have hune : u ≠ [] := by rw [hu]; simp
      refine ⟨?_, ?_, ?_⟩
      · exact replace_not_mem _ _ attr_pattern_ne_nil '\n' (by decide) u.length u le_rfl hnl
      · intro ch hch
        rcases replace_head _ _ attr_pattern_ne_nil attr_replacement_ne_nil u hune with hcase | hcase
        · rw [hcase] at hch
          have : db_c14n_attr_replacement.head? = some 'M' := by decide
          rw [this] at hch
          injection hch with hch
          rw [← hch]
          decide
        · rw [hcase] at hch
          exact hh ch hch
      · intro ch hch
        rcases replace_getLast _ _ attr_pattern_ne_nil attr_replacement_ne_nil
            u.length u le_rfl hune with hcase | hcase
        · rw [hcase] at hch
          have : db_c14n_attr_replacement.getLast? = some '\"' := by decide
          rw [this] at hch
          injection hch with hch
          rw [← hch]
          decide
        · rw [hcase] at hch
          exact hl ch hch
  · exact ⟨hnl, hh, hl⟩

/-- The attribute step is idempotent on every string. -/
theorem attr_step_idem (u : List Char) :
    db_c14n_attr_step (db_c14n_attr_step u) = db_c14n_attr_step u := by
  by_cases hcond : rustContains ("MessageSchemaVersionId".toList) u = true
      ∧ rustContains ("BusinessTransactionId".toList) u = true
  · have hstep : db_c14n_attr_step u
        = rustReplace db_c14n_attr_pattern db_c14n_attr_replacement u := by
      rw [db_c14n_attr_step, if_pos hcond]
    have hfix : rustReplace db_c14n_attr_pattern db_c14n_attr_replacement
        (rustReplace db_c14n_attr_pattern db_c14n_attr_replacement u)
        = rustReplace db_c14n_attr_pattern db_c14n_attr_replacement u :=
      replace_eq_self_of_no_occurrence _ _ attr_pattern_ne_nil _
        (attr_no_occurrence u.length u le_rfl)
    rcases replace_eq_or_infix db_c14n_attr_pattern db_c14n_attr_replacement
        attr_pattern_ne_nil u with hcase | hcase
    · rw [hstep, hcase, db_c14n_attr_step, if_pos hcond]
      exact hcase
    · have hm1 : rustContains ("MessageSchemaVersionId".toList)
          (rustReplace db_c14n_attr_pattern db_c14n_attr_replacement u) = true := by
        rw [rustContains, decide_eq_true_eq]
        exact List.IsInfix.trans (by decide) hcase
      have hm2 : rustContains ("BusinessTransactionId".toList)
          (rustReplace db_c14n_attr_pattern db_c14n_attr_replacement u) = true := by
        rw [rustContains, decide_eq_true_eq]
        exact List.IsInfix.trans (by decide) hcase
      rw [hstep, db_c14n_attr_step, if_pos ⟨hm1, hm2⟩]
      exact hfix
  · have hstep : db_c14n_attr_step u = u := by
      rw [db_c14n_attr_step, if_neg hcond]
    rw [hstep, hstep]

/-- Idempotence of the full DB-C14N pass. -/
theorem apply_db_c14n_canonicalization_idem (xml : List Char) :
    apply_db_c14n_canonicalization (apply_db_c14n_canonicalization xml)
      = apply_db_c14n_canonicalization xml := by
  rw [apply_db_c14n_canonicalization, apply_db_c14n_canonicalization]
  rw [line_step_eq_self _ (attr_step_canonInv _ (line_step_canonInv xml))]
  exact attr_step_idem _

/-- C6: canonicalizing with `db_c14n` twice equals canonicalizing
once — the whitespace pass is a no-op on its own (trimmed,
newline-free) output, and the literal attribute replacement can leave
no fresh occurrence of its own pattern, so a second pass changes
nothing. -/
theorem c6_db_c14n_idempotent (xml : List Char) :
    (canonicalize_xml xml ("db_c14n".toList)).bind
        (fun y => canonicalize_xml y ("db_c14n".toList))
      = canonicalize_xml xml ("db_c14n".toList) := by
  simp only [canonicalize_xml, eq_self_iff_true, if_true, Except.bind]
  rw [apply_db_c14n_canonicalization_idem]

end DdexSuite
